import Mathlib

/-!
Verification of the phishing-email detection pipeline.

This file gives a shallow embedding, in Lean 4, of the decision pipeline of
the repository (`src/smtp_server.py`, `src/phishing_detector.py`,
`src/database.py`) and proves properties of the embedded code.

Conventions of the embedding:
* Python strings become Lean `String`; the character-level operations
  (`split`, `lower`, `in`) are spelled out over `List Char` so that every
  definition evaluates by kernel reduction.  In case-insensitive matching,
  `str.lower` acts through its ASCII action (`Char.toLower`); the final
  `text.lower()` of `_clean_text` is modelled by `pyLower`, which also
  carries Unicode's one multi-character lowercase mapping
  `U+0130 → "i" ++ U+0307` (SpecialCasing.txt), applied by CPython.
* Machine floats used as probabilities become `ℚ`.
* External capabilities (the trained model, the SHA-256 user lookup, the
  HTML-to-text converter) are parameters of the embedded functions.
* A Python function that can raise becomes a function into `Except`; an
  `Except.error` result models `raise` + session rollback, i.e. the caller
  keeps its unchanged store.
-/

namespace Phish

/-- Python `c in s` for a single character. -/
def containsChar (s : List Char) (c : Char) : Bool := s.contains c

/-- Python `str.lower`, modelled by its ASCII action on each character. -/
def lowerCL (s : List Char) : List Char := s.map Char.toLower

/-- Python `s.split(sep)` for a one-character separator: splits at every
occurrence, keeping empty pieces (`"".split('@') = [""]`). -/
def splitOnCharCL (sep : Char) : List Char → List (List Char)
  | [] => [[]]
  | c :: rest =>
    let r := splitOnCharCL sep rest
    if c = sep then [] :: r
    else
      match r with
      | [] => [[c]]
      | h :: t => (c :: h) :: t

/-- Python truthiness filter for an optional string: `None` and `""` are falsy
(mirrors `if original_sender:` checks in `handle_smtp_email`). -/
def optNonempty : Option String → Option String
  | some s => if s = "" then none else some s
  | none => none

/-- `get_sender_domain` from `smtp_server.py`: empty result when the address is
empty or has no `'@'`, otherwise the lowercased part after the last `'@'`
(Python `sender_email.split('@')[-1].lower()`). -/
def get_sender_domain (sender_email : String) : String :=
  if sender_email = "" ∨ containsChar sender_email.data '@' = false then ""
  else ⟨lowerCL ((splitOnCharCL '@' sender_email.data).getLastD [])⟩

/-- `_phishing_risk_level` from `smtp_server.py`, probabilities as `ℚ`. -/
def _phishing_risk_level (probability : ℚ) : String :=
  if probability ≥ 85/100 then "HIGH"
  else if probability ≥ 55/100 then "MEDIUM"
  else "LOW"

/-- `PhishingDetector.is_whitelisted` from `phishing_detector.py`.  The
whitelist set is modelled as a list of domains.  The address is exempt when the
lowercased domain after the last `'@'` is in the set, or, when that domain has
more than two dot-separated labels, its last two labels joined by `'.'` are in
the set. -/
def is_whitelisted (whitelist_domains : List String) (email_address : String) : Bool :=
  if email_address = "" ∨ containsChar email_address.data '@' = false then false
  else
    let domain : String := ⟨lowerCL ((splitOnCharCL '@' email_address.data).getLastD [])⟩
    if domain ∈ whitelist_domains then true
    else
      let parts := splitOnCharCL '.' domain.data
      if parts.length > 2 then
        decide ((⟨List.intercalate ['.'] (parts.drop (parts.length - 2))⟩ : String)
          ∈ whitelist_domains)
      else false

/-- Row of the `EmailEvent` table (`models.py`). -/
structure EmailEvent where
  id : Nat
  userId : Nat
  senderDomain : String
  isForwarded : Bool
  messageIdHash : Option String
deriving DecidableEq

/-- Row of the `Prediction` table (`models.py`). -/
structure Prediction where
  emailEventId : Nat
  modelVersion : String
  phishingProbability : ℚ
  predictedLabel : String
  riskLevel : String
deriving DecidableEq

/-- The record store backing `DatabaseManager` (`database.py`): the tables the
pipeline touches, plus the autoincrement counter for `EmailEvent.id`.
User rows are abstracted away (user lookup is a parameter of the handler). -/
structure Db where
  events : List EmailEvent
  predictions : List Prediction
  trustedDomains : List (Nat × String)
  nextEventId : Nat
deriving DecidableEq

/-- `DatabaseManager.log_email_event`: inserts a new `EmailEvent` row and
returns it together with the updated store. -/
def Db.log_email_event (db : Db) (user_id : Nat) (sender_domain : String)
    (is_forwarded : Bool) (message_id_hash : Option String) : EmailEvent × Db :=
  let event : EmailEvent :=
    ⟨db.nextEventId, user_id, sender_domain, is_forwarded, message_id_hash⟩
  (event, { db with events := db.events ++ [event], nextEventId := db.nextEventId + 1 })

/-- `DatabaseManager.is_trusted_domain`: membership of `(user_id, domain)` in
the `TrustedDomain` table. -/
def Db.is_trusted_domain (db : Db) (user_id : Nat) (domain : String) : Bool :=
  db.trustedDomains.any (fun p => p.1 == user_id && p.2 == domain)

/-- `DatabaseManager.log_prediction`: raises `ValueError` (modelled as
`Except.error`, store unchanged) when the referenced `EmailEvent` does not
exist or already has a `Prediction`; otherwise inserts the new row. -/
def Db.log_prediction (db : Db) (email_event_id : Nat) (model_version : String)
    (phishing_prob : ℚ) (predicted_label : String) (risk_level : String) :
    Except String Db :=
  if ¬ db.events.any (fun e => e.id == email_event_id) then
    .error "EmailEvent does not exist"
  else if db.predictions.any (fun p => p.emailEventId == email_event_id) then
    .error "Prediction already exists for this EmailEvent"
  else
    .ok { db with predictions := db.predictions ++
            [⟨email_event_id, model_version, phishing_prob, predicted_label, risk_level⟩] }

/-- Result dictionary of `PhishingDetector.classify_email`. -/
structure ClassifierOut where
  label : String
  probability : ℚ
deriving DecidableEq

/-- `PhishingDetector.classify_email`: the trained model is abstracted as
`predictFn` (the predicted class index, `model.predict`) and `probaFn` (the
per-class probability vector, `model.predict_proba`, indexed by class).  The
classified text is `f"{subject} {body}"` and the reported probability is the
probability of the predicted class. -/
def classify_email (predictFn : String → Nat) (probaFn : String → Nat → ℚ)
    (subject body : String) : ClassifierOut :=
  let text := subject ++ " " ++ body
  let prediction := predictFn text
  { label := if prediction = 1 then "phishing" else "legitimate"
    probability := probaFn text prediction }

/-- Result dictionary of `PhishingDetector.preprocess_email` (the
`ExtractedContent` of the pipeline). -/
structure Extracted where
  subject : String
  body : String
  original_subject : String
  original_body : String
  original_sender : Option String
deriving DecidableEq

/-- Lines 134–137 of `smtp_server.py`: the effective address for the trust
check — the unwrapped original sender when one was resolved (and nonempty),
else the direct envelope sender. -/
def check_address_of (sender_email : String) (original_sender : Option String) : String :=
  match optNonempty original_sender with
  | some s => s
  | none => sender_email

/-- Lines 135–138 of `smtp_server.py`: the effective domain — the unwrapped
original sender's domain when it is nonempty, else the direct sender's. -/
def check_domain_of (sender_email : String) (original_sender : Option String) : String :=
  match optNonempty original_sender with
  | some s =>
    if get_sender_domain s = "" then get_sender_domain sender_email
    else get_sender_domain s
  | none => get_sender_domain sender_email

/-- Lines 149–153 of `smtp_server.py`: the trust resolver — the whitelist is
checked on the effective address, then the user's trusted domains on the
effective domain. -/
def resolve_trusted (wl : List String) (db : Db) (user_id : Nat)
    (check_address check_domain : String) : Option String :=
  if is_whitelisted wl check_address then some check_address
  else if db.is_trusted_domain user_id check_domain then some check_address
  else none

/-- The verdict fields of lines 155–170 of `smtp_server.py`, plus whether the
classifier was invoked to produce them. -/
structure Verdict where
  predictedLabel : String
  phishingProbability : ℚ
  riskLevel : String
  reason : String
  classifierCalled : Bool
deriving DecidableEq

/-- Lines 155–170 of `smtp_server.py`: an exempt message gets the fixed
verdict `(legitimate, 0.0, LOW, trusted_domain)` without invoking the
classifier; otherwise the classifier output is converted (complement of the
probability when the label is `legitimate`) and mapped to a risk tier. -/
def make_verdict (predictFn : String → Nat) (probaFn : String → Nat → ℚ)
    (subject body : String) (trusted_address : Option String) : Verdict :=
  match trusted_address with
  | some _ => ⟨"legitimate", 0, "LOW", "trusted_domain", false⟩
  | none =>
    let prediction := classify_email predictFn probaFn subject body
    let p :=
      if prediction.label = "legitimate" then 1 - prediction.probability
      else prediction.probability
    ⟨prediction.label, p, _phishing_risk_level p, "model_prediction", true⟩

/-- Observable outcome of one run of `handle_smtp_email`: the SMTP response,
the resulting store, and the handler's local decision variables (whether the
classifier was invoked, the effective address/domain used for the trust check,
and the verdict fields passed to `log_prediction`). -/
structure Outcome where
  response : String
  db : Db
  classifierCalled : Bool
  checkAddress : String
  checkDomain : String
  trustedAddress : Option String
  predictedLabel : String
  phishingProbability : ℚ
  riskLevel : String
  reason : String
deriving DecidableEq

/-- Lines 134–194 of `smtp_server.py` (after the user and parse guards):
log the email event, resolve trust, build the verdict, log the prediction.
A `ValueError` escaping `log_prediction` propagates to
`RegisteredUserSMTPHandler.handle_DATA`, which answers
`"421 Temp fail - try again later"`. -/
def handle_core (wl : List String) (model_version : String)
    (predictFn : String → Nat) (probaFn : String → Nat → ℚ) (user_id : Nat)
    (db : Db) (sender_email : String) (ex : Extracted)
    (message_id_hash : Option String) : Outcome :=
  let check_address := check_address_of sender_email ex.original_sender
  let check_domain := check_domain_of sender_email ex.original_sender
  let eventAndDb := db.log_email_event user_id check_domain
    (optNonempty ex.original_sender).isSome message_id_hash
  let db1 := eventAndDb.2
  let trusted_address := resolve_trusted wl db1 user_id check_address check_domain
  let v := make_verdict predictFn probaFn ex.subject ex.body trusted_address
  match db1.log_prediction eventAndDb.1.id model_version v.phishingProbability
      v.predictedLabel v.riskLevel with
  | .error _ =>
      { response := "421 Temp fail - try again later", db := db1
        classifierCalled := v.classifierCalled, checkAddress := check_address
        checkDomain := check_domain, trustedAddress := trusted_address
        predictedLabel := v.predictedLabel
        phishingProbability := v.phishingProbability
        riskLevel := v.riskLevel, reason := v.reason }
  | .ok db2 =>
      { response := "250 OK - processed successfully", db := db2
        classifierCalled := v.classifierCalled, checkAddress := check_address
        checkDomain := check_domain, trustedAddress := trusted_address
        predictedLabel := v.predictedLabel
        phishingProbability := v.phishingProbability
        riskLevel := v.riskLevel, reason := v.reason }

/-- `handle_smtp_email` from `smtp_server.py`.  `userLookup` stands for
`DB_MANAGER.get_user_by_email_hash(hash_email(sender_email))` and returns the
registered user's id; `extracted` is the result of
`DETECTOR.preprocess_email(raw_message)` (`none` on parse failure). -/
def handle_smtp_email (wl : List String) (model_version : String)
    (predictFn : String → Nat) (probaFn : String → Nat → ℚ)
    (userLookup : String → Option Nat) (db : Db) (sender_email : String)
    (extracted : Option Extracted) (message_id_hash : Option String) : Outcome :=
  match userLookup sender_email with
  | none =>
      { response := "550 Rejected - sender not registered", db := db
        classifierCalled := false, checkAddress := "", checkDomain := ""
        trustedAddress := none, predictedLabel := "", phishingProbability := 0
        riskLevel := "", reason := "" }
  | some user_id =>
    match extracted with
    | none =>
        { response := "550 Rejected - message could not be parsed", db := db
          classifierCalled := false, checkAddress := "", checkDomain := ""
          trustedAddress := none, predictedLabel := "", phishingProbability := 0
          riskLevel := "", reason := "" }
    | some ex =>
      handle_core wl model_version predictFn probaFn user_id db sender_email ex
        message_id_hash

/-- The `Prediction` table never holds two rows for one `EmailEvent`. -/
def uniquePredictions (db : Db) : Prop :=
  db.predictions.Pairwise (fun p q => p.emailEventId ≠ q.emailEventId)

instance (db : Db) : Decidable (uniquePredictions db) :=
  List.instDecidablePairwise _

/-- Empty store used by concrete runs. -/
def dbEmpty : Db := ⟨[], [], [], 1⟩

/-- Store holding one user-trusted domain, used by concrete runs. -/
def dbTrustsMallory : Db := ⟨[], [], [(1, "mallory.test")], 1⟩

/-- Extracted content whose forwarding unwrapper resolved an original sender. -/
def exForwarded : Extracted :=
  ⟨"invoice", "pay now please", "Fwd: invoice", "raw body", some "ceo@trusted.example"⟩

/-- Extracted content with no forwarding evidence. -/
def exPlain : Extracted := ⟨"hello", "a plain message body", "hello", "raw body", none⟩

/-- The whitelist-exemption condition as the specification words it: the
address contains `'@'`, and the lowercased domain after the last `'@'` is in
the whitelist, or that domain has more than two dot-separated labels and its
last two labels joined by `'.'` are in the whitelist. -/
def whitelistSpec (wl : List String) (addr : String) : Prop :=
  containsChar addr.data '@' = true ∧
    ((⟨lowerCL ((splitOnCharCL '@' addr.data).getLastD [])⟩ : String) ∈ wl ∨
      (2 < (splitOnCharCL '.' (lowerCL ((splitOnCharCL '@' addr.data).getLastD []))).length ∧
        (⟨List.intercalate ['.']
            ((splitOnCharCL '.' (lowerCL ((splitOnCharCL '@' addr.data).getLastD []))).drop
              ((splitOnCharCL '.' (lowerCL ((splitOnCharCL '@' addr.data).getLastD []))).length - 2))⟩
          : String) ∈ wl))

/-- All observable fields of `handle_core` are the composition of the named
stages, whichever way `log_prediction` ends. -/
theorem handle_core_fields (wl : List String) (mv : String)
    (predictFn : String → Nat) (probaFn : String → Nat → ℚ) (user_id : Nat)
    (db : Db) (sender_email : String) (ex : Extracted) (mih : Option String) :
    (handle_core wl mv predictFn probaFn user_id db sender_email ex mih).checkAddress
        = check_address_of sender_email ex.original_sender ∧
    (handle_core wl mv predictFn probaFn user_id db sender_email ex mih).checkDomain
        = check_domain_of sender_email ex.original_sender ∧
    (handle_core wl mv predictFn probaFn user_id db sender_email ex mih).trustedAddress
        = resolve_trusted wl
            (db.log_email_event user_id (check_domain_of sender_email ex.original_sender)
              (optNonempty ex.original_sender).isSome mih).2 user_id
            (check_address_of sender_email ex.original_sender)
            (check_domain_of sender_email ex.original_sender) ∧
    ((handle_core wl mv predictFn probaFn user_id db sender_email ex mih).predictedLabel,
      (handle_core wl mv predictFn probaFn user_id db sender_email ex mih).phishingProbability,
      (handle_core wl mv predictFn probaFn user_id db sender_email ex mih).riskLevel,
      (handle_core wl mv predictFn probaFn user_id db sender_email ex mih).reason,
      (handle_core wl mv predictFn probaFn user_id db sender_email ex mih).classifierCalled)
        = ((make_verdict predictFn probaFn ex.subject ex.body
              (resolve_trusted wl
                (db.log_email_event user_id (check_domain_of sender_email ex.original_sender)
                  (optNonempty ex.original_sender).isSome mih).2 user_id
                (check_address_of sender_email ex.original_sender)
                (check_domain_of sender_email ex.original_sender))).predictedLabel,
            (make_verdict predictFn probaFn ex.subject ex.body
              (resolve_trusted wl
                (db.log_email_event user_id (check_domain_of sender_email ex.original_sender)
                  (optNonempty ex.original_sender).isSome mih).2 user_id
                (check_address_of sender_email ex.original_sender)
                (check_domain_of sender_email ex.original_sender))).phishingProbability,
            (make_verdict predictFn probaFn ex.subject ex.body
              (resolve_trusted wl
                (db.log_email_event user_id (check_domain_of sender_email ex.original_sender)
                  (optNonempty ex.original_sender).isSome mih).2 user_id
                (check_address_of sender_email ex.original_sender)
                (check_domain_of sender_email ex.original_sender))).riskLevel,
            (make_verdict predictFn probaFn ex.subject ex.body
              (resolve_trusted wl
                (db.log_email_event user_id (check_domain_of sender_email ex.original_sender)
                  (optNonempty ex.original_sender).isSome mih).2 user_id
                (check_address_of sender_email ex.original_sender)
                (check_domain_of sender_email ex.original_sender))).reason,
            (make_verdict predictFn probaFn ex.subject ex.body
              (resolve_trusted wl
                (db.log_email_event user_id (check_domain_of sender_email ex.original_sender)
                  (optNonempty ex.original_sender).isSome mih).2 user_id
                (check_address_of sender_email ex.original_sender)
                (check_domain_of sender_email ex.original_sender))).classifierCalled) := by
  unfold handle_core
  dsimp only
  split <;> exact ⟨rfl, rfl, rfl, rfl⟩

/-- C4: the risk tier is HIGH iff `p ≥ 0.85`, MEDIUM iff `0.55 ≤ p < 0.85`,
LOW iff `p < 0.55`; in particular `0.85 ↦ HIGH`, `0.55 ↦ MEDIUM`,
`0.549999 ↦ LOW`. -/
theorem risk_tier_lower_bounds_closed (p : ℚ) :
    (_phishing_risk_level p = "HIGH" ↔ 85/100 ≤ p) ∧
    (_phishing_risk_level p = "MEDIUM" ↔ 55/100 ≤ p ∧ p < 85/100) ∧
    (_phishing_risk_level p = "LOW" ↔ p < 55/100) ∧
    _phishing_risk_level (85/100) = "HIGH" ∧
    _phishing_risk_level (55/100) = "MEDIUM" ∧
    _phishing_risk_level (549999/1000000) = "LOW" := by
  unfold _phishing_risk_level
  refine ⟨?_, ?_, ?_, by norm_num, by norm_num, by norm_num⟩
  · constructor
    · intro hh
      by_contra hlt
      rw [if_neg hlt] at hh
      split_ifs at hh <;> exact absurd hh (by decide)
    · intro h1
      rw [if_pos h1]
  · constructor
    · intro hmed
      split_ifs at hmed with h1 h2
      · exact absurd hmed (by decide)
      · exact ⟨h2, lt_of_not_le h1⟩
      · exact absurd hmed (by decide)
    · intro ⟨hm, hlt⟩
      rw [if_neg (not_le.mpr hlt), if_pos hm]
  · constructor
    · intro hl
      split_ifs at hl with h1 h2
      · exact absurd hl (by decide)
      · exact absurd hl (by decide)
      · exact lt_of_not_le h2
    · intro hlt
      rw [if_neg (not_le.mpr (by linarith)), if_neg (not_le.mpr hlt)]

/-- C5: `is_whitelisted` holds exactly under the whitelist-membership
condition stated by the spec, and the empty address is never exempt. -/
theorem whitelist_membership_iff (wl : List String) (addr : String) :
    (is_whitelisted wl addr = true ↔ whitelistSpec wl addr) ∧
    is_whitelisted wl "" = false := by
  refine ⟨?_, rfl⟩
  unfold is_whitelisted whitelistSpec
  by_cases h : addr = "" ∨ containsChar addr.data '@' = false
  · rw [if_pos h]
    refine iff_of_false (by decide) ?_
    rintro ⟨hct, -⟩
    rcases h with h | h
    · subst h
      exact absurd hct (by decide)
    · rw [h] at hct
      cases hct
  · rw [if_neg h]
    push_neg at h
    obtain ⟨-, hct⟩ := h
    have hct' : containsChar addr.data '@' = true := by
      cases hb : containsChar addr.data '@'
      · exact absurd hb hct
      · rfl
    dsimp only
    simp only [hct', true_and]
    split_ifs with h1 h2
    · exact iff_of_true rfl (Or.inl h1)
    · rw [decide_eq_true_eq]
      constructor
      · intro hp
        exact Or.inr ⟨h2, hp⟩
      · rintro (hd | ⟨-, hp⟩)
        · exact absurd hd h1
        · exact hp
    · refine iff_of_false (by decide) ?_
      rintro (hd | ⟨hlen, -⟩)
      · exact absurd hd h1
      · exact absurd hlen h2

/-- Unfolding lemma: a registered user with successfully extracted content is
handled by `handle_core`. -/
theorem handle_smtp_email_some (wl : List String) (mv : String)
    (predictFn : String → Nat) (probaFn : String → Nat → ℚ)
    (userLookup : String → Option Nat) (db : Db) (sender_email : String)
    (ex : Extracted) (mih : Option String) (uid : Nat)
    (huid : userLookup sender_email = some uid) :
    handle_smtp_email wl mv predictFn probaFn userLookup db sender_email (some ex) mih
      = handle_core wl mv predictFn probaFn uid db sender_email ex mih := by
  unfold handle_smtp_email
  rw [huid]

/-- C10: `log_prediction` errors (store unchanged, by the rollback modelling)
when the referenced `EmailEvent` is absent or already has a `Prediction`, and
a successful insert preserves the at-most-one-prediction-per-event
invariant. -/
theorem log_prediction_uniqueness (db : Db) (eid : Nat) (mv : String) (prob : ℚ)
    (lbl rl : String) (h : uniquePredictions db) :
    ((¬ ∃ e ∈ db.events, e.id = eid) →
      db.log_prediction eid mv prob lbl rl = .error "EmailEvent does not exist") ∧
    ((∃ e ∈ db.events, e.id = eid) → (∃ p ∈ db.predictions, p.emailEventId = eid) →
      db.log_prediction eid mv prob lbl rl =
        .error "Prediction already exists for this EmailEvent") ∧
    (∀ db', db.log_prediction eid mv prob lbl rl = Except.ok db' →
      uniquePredictions db') := by
  unfold Db.log_prediction
  refine ⟨?_, ?_, ?_⟩
  · intro hne
    rw [if_pos]
    simp only [List.any_eq_true, beq_iff_eq]
    push_neg at hne
    intro ⟨e, he, hid⟩
    exact hne e he hid
  · intro ⟨e, he, hid⟩ ⟨q, hq, hqe⟩
    rw [if_neg, if_pos]
    · simp only [List.any_eq_true, beq_iff_eq]
      exact ⟨q, hq, hqe⟩
    · simp only [List.any_eq_true, beq_iff_eq, not_not]
      exact ⟨e, he, hid⟩
  · intro db' hok
    split_ifs at hok with h1 h2
    simp only [Except.ok.injEq] at hok
    subst hok
    unfold uniquePredictions at h ⊢
    simp only [List.pairwise_append, List.pairwise_singleton]
    refine ⟨h, trivial, ?_⟩
    intro p hp q hq
    simp only [List.mem_singleton] at hq
    subst hq
    simp only [List.any_eq_true, beq_iff_eq] at h2
    push_neg at h2
    exact fun hcontra => h2 p hp hcontra

/-- C10 witness: a concrete store with one event and no predictions satisfies
the invariant, and inserting a prediction preserves it. -/
theorem log_prediction_uniqueness_witness :
    uniquePredictions ⟨[⟨1, 1, "example.com", false, none⟩], [], [], 2⟩ ∧
    (∀ db', Db.log_prediction ⟨[⟨1, 1, "example.com", false, none⟩], [], [], 2⟩
        1 "m" (1/2) "phishing" "HIGH" = Except.ok db' → uniquePredictions db') :=
  ⟨List.Pairwise.nil,
    (log_prediction_uniqueness ⟨[⟨1, 1, "example.com", false, none⟩], [], [], 2⟩
      1 "m" (1/2) "phishing" "HIGH" List.Pairwise.nil).2.2⟩

/-- C9: when preprocessing fails (`extracted = none`), `handle_smtp_email`
rejects the message and the store is returned untouched: no email event and no
prediction is recorded. -/
theorem parse_failure_atomicity (wl : List String) (mv : String)
    (predictFn : String → Nat) (probaFn : String → Nat → ℚ)
    (userLookup : String → Option Nat) (db : Db) (sender_email : String)
    (mih : Option String) :
    (handle_smtp_email wl mv predictFn probaFn userLookup db sender_email none mih).db
      = db ∧
    ((handle_smtp_email wl mv predictFn probaFn userLookup db sender_email none mih).response
        = "550 Rejected - message could not be parsed" ∨
      (handle_smtp_email wl mv predictFn probaFn userLookup db sender_email none mih).response
        = "550 Rejected - sender not registered") := by
  unfold handle_smtp_email
  cases userLookup sender_email
  · exact ⟨rfl, Or.inr rfl⟩
  · exact ⟨rfl, Or.inl rfl⟩

/-- C1: when the forwarding unwrapper resolves a (nonempty) original sender,
the exemption check of `handle_smtp_email` uses that unwrapped original sender
as the effective address, not the direct envelope sender, and a whitelist hit
on it yields the exemption. -/
theorem trust_precedence (wl : List String) (mv : String)
    (predictFn : String → Nat) (probaFn : String → Nat → ℚ)
    (userLookup : String → Option Nat) (db : Db) (sender_email : String)
    (ex : Extracted) (mih : Option String) (s : String)
    (huser : (userLookup sender_email).isSome = true)
    (hs : ex.original_sender = some s) (hne : s ≠ "") :
    (handle_smtp_email wl mv predictFn probaFn userLookup db sender_email (some ex) mih).checkAddress
      = s ∧
    (is_whitelisted wl s = true →
      (handle_smtp_email wl mv predictFn probaFn userLookup db sender_email (some ex) mih).trustedAddress
        = some s) := by
  obtain ⟨uid, huid⟩ := Option.isSome_iff_exists.mp huser
  have haddr : check_address_of sender_email ex.original_sender = s := by
    unfold check_address_of optNonempty
    rw [hs]
    simp [hne]
  unfold handle_smtp_email
  rw [huid]
  obtain ⟨hca, -, htr, -⟩ :=
    handle_core_fields wl mv predictFn probaFn uid db sender_email ex mih
  refine ⟨hca.trans haddr, ?_⟩
  intro hwl
  rw [htr, haddr]
  unfold resolve_trusted
  rw [if_pos hwl]

/-- C1 witness: direct sender `user@mallory.test`, unwrapped original sender
`ceo@trusted.example` with `trusted.example` whitelisted — the effective
address is the unwrapped sender and it yields the exemption. -/
theorem trust_precedence_witness :
    (handle_smtp_email ["trusted.example"] "m1" (fun _ => 1) (fun _ _ => 9/10)
        (fun _ => some 1) dbEmpty "user@mallory.test" (some exForwarded) none).checkAddress
      = "ceo@trusted.example" ∧
    (is_whitelisted ["trusted.example"] "ceo@trusted.example" = true →
      (handle_smtp_email ["trusted.example"] "m1" (fun _ => 1) (fun _ _ => 9/10)
          (fun _ => some 1) dbEmpty "user@mallory.test" (some exForwarded) none).trustedAddress
        = some "ceo@trusted.example") :=
  trust_precedence ["trusted.example"] "m1" (fun _ => 1) (fun _ _ => 9/10)
    (fun _ => some 1) dbEmpty "user@mallory.test" exForwarded none
    "ceo@trusted.example" rfl rfl (by decide)

/-- C2: whenever the classifier is invoked, the stored phishing probability is
the complement `1 - p` of the classifier probability when the predicted label
is `legitimate`, and `p` itself when it is `phishing`; the stored label is the
classifier's. -/
theorem probability_complement_law (wl : List String) (mv : String)
    (predictFn : String → Nat) (probaFn : String → Nat → ℚ)
    (userLookup : String → Option Nat) (db : Db) (sender_email : String)
    (ex : Extracted) (mih : Option String)
    (h : (handle_smtp_email wl mv predictFn probaFn userLookup db sender_email (some ex) mih).classifierCalled
      = true) :
    (handle_smtp_email wl mv predictFn probaFn userLookup db sender_email (some ex) mih).predictedLabel
      = (classify_email predictFn probaFn ex.subject ex.body).label ∧
    (handle_smtp_email wl mv predictFn probaFn userLookup db sender_email (some ex) mih).phishingProbability
      = (if (classify_email predictFn probaFn ex.subject ex.body).label = "legitimate"
          then 1 - (classify_email predictFn probaFn ex.subject ex.body).probability
          else (classify_email predictFn probaFn ex.subject ex.body).probability) := by
  cases huser : userLookup sender_email with
  | none =>
    rw [handle_smtp_email] at h
    rw [huser] at h
    cases h
  | some uid =>
    rw [handle_smtp_email_some wl mv predictFn probaFn userLookup db sender_email
      ex mih uid huser] at h ⊢
    obtain ⟨-, -, -, hv⟩ :=
      handle_core_fields wl mv predictFn probaFn uid db sender_email ex mih
    rw [Prod.mk.injEq, Prod.mk.injEq, Prod.mk.injEq, Prod.mk.injEq] at hv
    obtain ⟨hl, hp, -, -, hc⟩ := hv
    rw [hc] at h
    cases hR : resolve_trusted wl
        (db.log_email_event uid (check_domain_of sender_email ex.original_sender)
          (optNonempty ex.original_sender).isSome mih).2 uid
        (check_address_of sender_email ex.original_sender)
        (check_domain_of sender_email ex.original_sender) with
    | some t =>
      rw [hR] at h
      exact absurd h (by simp [make_verdict])
    | none =>
      rw [hR] at hl hp
      simp only [make_verdict] at hl hp
      exact ⟨hl, hp⟩

/-- C2 witness: an untrusted sender with a classifier answering
`(legitimate, 3/10)` yields a stored phishing probability of `7/10`. -/
theorem probability_complement_law_witness :
    (handle_smtp_email [] "m1" (fun _ => 0) (fun _ _ => 3/10) (fun _ => some 1)
        dbEmpty "user@mallory.test" (some exPlain) none).classifierCalled = true ∧
    ((handle_smtp_email [] "m1" (fun _ => 0) (fun _ _ => 3/10) (fun _ => some 1)
        dbEmpty "user@mallory.test" (some exPlain) none).predictedLabel
      = (classify_email (fun _ => 0) (fun _ _ => 3/10) exPlain.subject exPlain.body).label ∧
     (handle_smtp_email [] "m1" (fun _ => 0) (fun _ _ => 3/10) (fun _ => some 1)
        dbEmpty "user@mallory.test" (some exPlain) none).phishingProbability
      = (if (classify_email (fun _ => 0) (fun _ _ => 3/10) exPlain.subject exPlain.body).label
            = "legitimate"
          then 1 - (classify_email (fun _ => 0) (fun _ _ => 3/10) exPlain.subject exPlain.body).probability
          else (classify_email (fun _ => 0) (fun _ _ => 3/10) exPlain.subject exPlain.body).probability)) :=
  ⟨rfl,
    probability_complement_law [] "m1" (fun _ => 0) (fun _ _ => 3/10) (fun _ => some 1)
      dbEmpty "user@mallory.test" exPlain none rfl⟩

/-- C3 counterexample: an exemption that comes from the whitelist (the
effective address is whitelisted, the user has no trusted domains) is still
recorded with reason `"trusted_domain"`, not `"whitelisted_domain"` as the
claim states. -/
theorem exempt_reason_counterexample :
    is_whitelisted ["trusted.example"]
      (handle_smtp_email ["trusted.example"] "m1" (fun _ => 1) (fun _ _ => 9/10)
        (fun _ => some 1) dbEmpty "user@mallory.test" (some exForwarded) none).checkAddress
      = true ∧
    (handle_smtp_email ["trusted.example"] "m1" (fun _ => 1) (fun _ _ => 9/10)
        (fun _ => some 1) dbEmpty "user@mallory.test" (some exForwarded) none).trustedAddress.isSome
      = true ∧
    (handle_smtp_email ["trusted.example"] "m1" (fun _ => 1) (fun _ _ => 9/10)
        (fun _ => some 1) dbEmpty "user@mallory.test" (some exForwarded) none).reason
      ≠ "whitelisted_domain" :=
  ⟨by decide, by decide, by decide⟩

/-- C3 (amended): whenever the trust resolver reports exemption (whitelist or
user-trusted domain), the classifier is never invoked and the verdict is
`legitimate`, phishing probability `0`, risk `LOW`, with reason
`"trusted_domain"` for both exemption sources. -/
theorem exempt_verdict_amended (wl : List String) (mv : String)
    (predictFn : String → Nat) (probaFn : String → Nat → ℚ)
    (userLookup : String → Option Nat) (db : Db) (sender_email : String)
    (extracted : Option Extracted) (mih : Option String)
    (h : (handle_smtp_email wl mv predictFn probaFn userLookup db sender_email extracted mih).trustedAddress.isSome
      = true) :
    (handle_smtp_email wl mv predictFn probaFn userLookup db sender_email extracted mih).predictedLabel
        = "legitimate" ∧
    (handle_smtp_email wl mv predictFn probaFn userLookup db sender_email extracted mih).phishingProbability
        = 0 ∧
    (handle_smtp_email wl mv predictFn probaFn userLookup db sender_email extracted mih).riskLevel
        = "LOW" ∧
    (handle_smtp_email wl mv predictFn probaFn userLookup db sender_email extracted mih).reason
        = "trusted_domain" ∧
    (handle_smtp_email wl mv predictFn probaFn userLookup db sender_email extracted mih).classifierCalled
        = false := by
  cases huser : userLookup sender_email with
  | none =>
    rw [handle_smtp_email] at h
    rw [huser] at h
    cases h
  | some uid =>
    cases extracted with
    | none =>
      rw [handle_smtp_email] at h
      rw [huser] at h
      cases h
    | some ex =>
      rw [handle_smtp_email_some wl mv predictFn probaFn userLookup db sender_email
        ex mih uid huser] at h ⊢
      obtain ⟨-, -, htr, hv⟩ :=
        handle_core_fields wl mv predictFn probaFn uid db sender_email ex mih
      rw [Prod.mk.injEq, Prod.mk.injEq, Prod.mk.injEq, Prod.mk.injEq] at hv
      obtain ⟨hl, hp, hr, hre, hc⟩ := hv
      rw [htr] at h
      obtain ⟨t, hR⟩ := Option.isSome_iff_exists.mp h
      rw [hR] at hl hp hr hre hc
      simp only [make_verdict] at hl hp hr hre hc
      exact ⟨hl, hp, hr, hre, hc⟩

/-- C3 (amended) witness: a sender whose domain the user trusts is exempt with
the amended verdict fields. -/
theorem exempt_verdict_amended_witness :
    (handle_smtp_email [] "m1" (fun _ => 1) (fun _ _ => 9/10) (fun _ => some 1)
        dbTrustsMallory "user@mallory.test" (some exPlain) none).trustedAddress.isSome
      = true ∧
    ((handle_smtp_email [] "m1" (fun _ => 1) (fun _ _ => 9/10) (fun _ => some 1)
        dbTrustsMallory "user@mallory.test" (some exPlain) none).predictedLabel
      = "legitimate" ∧
     (handle_smtp_email [] "m1" (fun _ => 1) (fun _ _ => 9/10) (fun _ => some 1)
        dbTrustsMallory "user@mallory.test" (some exPlain) none).phishingProbability = 0 ∧
     (handle_smtp_email [] "m1" (fun _ => 1) (fun _ _ => 9/10) (fun _ => some 1)
        dbTrustsMallory "user@mallory.test" (some exPlain) none).riskLevel = "LOW" ∧
     (handle_smtp_email [] "m1" (fun _ => 1) (fun _ _ => 9/10) (fun _ => some 1)
        dbTrustsMallory "user@mallory.test" (some exPlain) none).reason = "trusted_domain" ∧
     (handle_smtp_email [] "m1" (fun _ => 1) (fun _ _ => 9/10) (fun _ => some 1)
        dbTrustsMallory "user@mallory.test" (some exPlain) none).classifierCalled = false) :=
  ⟨by decide,
    exempt_verdict_amended [] "m1" (fun _ => 1) (fun _ _ => 9/10) (fun _ => some 1)
      dbTrustsMallory "user@mallory.test" (some exPlain) none (by decide)⟩


/-! ### Message extractor (`PhishingDetector._extract_body`) -/

/-- The whitespace set of Python's `str.strip` / `\s`. -/
def isPyWhitespaceChar (c : Char) : Bool :=
  c ∈ [' ', '\t', '\n', '\r', '\x0b', '\x0c', '\x1c', '\x1d', '\x1e', '\x1f',
    '\x85', ' ', ' ', ' ', ' ', ' ', ' ',
    ' ', ' ', ' ', ' ', ' ', ' ', ' ',
    ' ', ' ', ' ', ' ', '　']

/-- Python `str.strip()`. -/
def trimCL (l : List Char) : List Char :=
  ((l.dropWhile isPyWhitespaceChar).reverse.dropWhile isPyWhitespaceChar).reverse

/-- Does the list start with the given pattern (used for substring search)? -/
def startsWithCL : List Char → List Char → Bool
  | _, [] => true
  | [], _ :: _ => false
  | a :: as, b :: bs => a == b && startsWithCL as bs

/-- Python `needle in hay` for strings, as character lists. -/
def containsSub (needle : List Char) : List Char → Bool
  | [] => startsWithCL [] needle
  | c :: rest => startsWithCL (c :: rest) needle || containsSub needle rest

/-- One body part seen by `msg.walk()`: its content type, its
`Content-Disposition` header (empty when absent) and its decoded text
content (the `get_content`/`get_payload` fallbacks are abstracted into the
part's text). -/
structure Part where
  contentType : String
  contentDisposition : String
  content : String
deriving DecidableEq

/-- `'attachment' in content_disposition`. -/
def isAttachment (p : Part) : Bool :=
  containsSub "attachment".data p.contentDisposition.data

/-- The break condition of the walk loop:
`if body and len(body.strip()) > 50: break`. -/
def breaksWalk (p : Part) : Bool :=
  p.content != "" && decide (50 < (trimCL p.content.data).length)

/-- The walk loop of `PhishingDetector._extract_body` (multipart branch,
lines 258–285): accumulates `body`/`html_body`, breaking at the first
non-attachment `text/plain` part with nonempty content of trimmed length
greater than 50. -/
def extract_body_walk : List Part → String → String → String × String
  | [], body, html_body => (body, html_body)
  | part :: rest, body, html_body =>
    if isAttachment part then extract_body_walk rest body html_body
    else if part.contentType == "text/plain" then
      (if breaksWalk part then (part.content, html_body)
       else extract_body_walk rest part.content html_body)
    else if part.contentType == "text/html" && (html_body == "") then
      extract_body_walk rest body part.content
    else extract_body_walk rest body html_body

/-- Lines 258–300 of `phishing_detector.py`: the chosen raw body of a
multipart message — the walk loop, then the HTML fallback
`if not body and html_body: body = self._html_to_text(html_body)`.
`htmlToText` abstracts `_html_to_text` (BeautifulSoup);
`_remove_email_artifacts` runs after this choice and is outside it. -/
def _extract_body_choice (htmlToText : String → String) (parts : List Part) : String :=
  let bh := extract_body_walk parts "" ""
  if bh.1 == "" && bh.2 != "" then htmlToText bh.2 else bh.1

/-- The first non-attachment `text/plain` part that stops the walk. -/
def firstQualifyingPlain : List Part → Option String
  | [] => none
  | p :: rest =>
    if !isAttachment p && (p.contentType == "text/plain") && breaksWalk p
    then some p.content
    else firstQualifyingPlain rest

/-- The content of the last non-attachment `text/plain` part. -/
def lastPlainContent : List Part → Option String
  | [] => none
  | p :: rest =>
    if !isAttachment p && (p.contentType == "text/plain") then
      match lastPlainContent rest with
      | some b => some b
      | none => some p.content
    else lastPlainContent rest

/-- The content of the first non-attachment `text/html` part with nonempty
content (a part with empty content leaves `html_body` falsy and has no
effect). -/
def firstHtmlContent : List Part → Option String
  | [] => none
  | p :: rest =>
    if !isAttachment p && (p.contentType == "text/html") && (p.content != "")
    then some p.content
    else firstHtmlContent rest

theorem firstQualifyingPlain_ne_empty {parts : List Part} {b : String}
    (h : firstQualifyingPlain parts = some b) : b ≠ "" := by
  induction parts with
  | nil => cases h
  | cons p rest ih =>
    rw [firstQualifyingPlain] at h
    split_ifs at h with hc
    · cases h
      simp only [Bool.and_eq_true, breaksWalk, bne_iff_ne, ne_eq] at hc
      exact hc.2.1
    · exact ih h

theorem firstHtmlContent_ne_empty {parts : List Part} {h0 : String}
    (h : firstHtmlContent parts = some h0) : h0 ≠ "" := by
  induction parts with
  | nil => cases h
  | cons p rest ih =>
    rw [firstHtmlContent] at h
    split_ifs at h with hc
    · cases h
      simp only [Bool.and_eq_true, bne_iff_ne, ne_eq] at hc
      exact hc.2
    · exact ih h

theorem bool_cond_ne_true {b : Bool} (h : b = false) : ¬ b = true := by
  rw [h]
  exact Bool.false_ne_true

theorem if_bool_false {α : Sort u} {a b : α} : (if false = true then a else b) = b := rfl

theorem if_bool_true {α : Sort u} {a b : α} : (if true = true then a else b) = a := rfl

theorem extract_body_walk_qual {parts : List Part} {b : String}
    (h : firstQualifyingPlain parts = some b) :
    ∀ body html_body, (extract_body_walk parts body html_body).1 = b := by
  induction parts with
  | nil => cases h
  | cons p rest ih =>
    intro body html_body
    cases hatt : isAttachment p with
    | true =>
      simp only [firstQualifyingPlain, extract_body_walk, hatt, Bool.not_true,
        Bool.false_and, reduceIte, if_bool_true, if_bool_false, Option.some.injEq] at h ⊢
      exact ih h body html_body
    | false =>
      cases hct : p.contentType == "text/plain" with
      | true =>
        cases hbr : breaksWalk p with
        | true =>
          simp only [firstQualifyingPlain, extract_body_walk, hatt, hct, hbr,
            Bool.not_false, Bool.true_and, Bool.and_true, reduceIte, if_bool_true, if_bool_false, Option.some.injEq] at h ⊢
          exact h
        | false =>
          simp only [firstQualifyingPlain, extract_body_walk, hatt, hct, hbr,
            Bool.not_false, Bool.true_and, Bool.and_false, reduceIte, if_bool_true, if_bool_false, Option.some.injEq] at h ⊢
          exact ih h p.content html_body
      | false =>
        cases hht : p.contentType == "text/html" && (html_body == "") with
        | true =>
          simp only [firstQualifyingPlain, extract_body_walk, hatt, hct, hht,
            Bool.not_false, Bool.true_and, Bool.false_and, reduceIte, if_bool_true, if_bool_false, Option.some.injEq] at h ⊢
          exact ih h body p.content
        | false =>
          simp only [firstQualifyingPlain, extract_body_walk, hatt, hct, hht,
            Bool.not_false, Bool.true_and, Bool.false_and, reduceIte, if_bool_true, if_bool_false, Option.some.injEq] at h ⊢
          exact ih h body html_body

theorem extract_body_walk_no_qual {parts : List Part}
    (h : firstQualifyingPlain parts = none) :
    ∀ body html_body,
      (extract_body_walk parts body html_body).1 = (lastPlainContent parts).getD body ∧
      (extract_body_walk parts body html_body).2 =
        (if html_body = "" then (firstHtmlContent parts).getD "" else html_body) := by
  induction parts with
  | nil =>
    intro body html_body
    refine ⟨rfl, ?_⟩
    simp only [extract_body_walk, firstHtmlContent, Option.getD_none]
    split_ifs with hb
    · exact hb
    · rfl
  | cons p rest ih =>
    intro body html_body
    cases hatt : isAttachment p with
    | true =>
      simp only [firstQualifyingPlain, extract_body_walk, lastPlainContent,
        firstHtmlContent, hatt, Bool.not_true, Bool.false_and, reduceIte, if_bool_true, if_bool_false, Option.some.injEq] at h ⊢
      exact ih h body html_body
    | false =>
      cases hct : p.contentType == "text/plain" with
      | true =>
        have hct' : p.contentType = "text/plain" := beq_iff_eq.mp hct
        have hcth : (p.contentType == "text/html") = false := by
          rw [hct']
          rfl
        cases hbr : breaksWalk p with
        | true =>
          simp only [firstQualifyingPlain, hatt, hct, hbr, Bool.not_false,
            Bool.true_and, Bool.and_true, reduceIte, if_bool_true, if_bool_false, Option.some.injEq] at h
          exact Option.noConfusion h
        | false =>
          simp only [firstQualifyingPlain, extract_body_walk, lastPlainContent,
            firstHtmlContent, hatt, hct, hcth, hbr, Bool.not_false, Bool.true_and,
            Bool.and_false, Bool.false_and, reduceIte, if_bool_true, if_bool_false, Option.some.injEq] at h ⊢
          obtain ⟨h1, h2⟩ := ih h p.content html_body
          refine ⟨?_, h2⟩
          rw [h1]
          cases lastPlainContent rest <;> rfl
      | false =>
        cases hht : p.contentType == "text/html" with
        | true =>
          cases hb : html_body == "" with
          | true =>
            have hb' : html_body = "" := beq_iff_eq.mp hb
            cases hce : p.content == "" with
            | true =>
              have hce' : p.content = "" := beq_iff_eq.mp hce
              simp only [firstQualifyingPlain, extract_body_walk, lastPlainContent,
                firstHtmlContent, hatt, hct, hht, hb, hce, Bool.not_false,
                Bool.true_and, Bool.false_and, Bool.and_true, bne, Bool.not_true,
                Bool.and_false, reduceIte, if_bool_true, if_bool_false, Option.some.injEq] at h ⊢
              obtain ⟨h1, h2⟩ := ih h body p.content
              rw [if_pos hce'] at h2
              rw [if_pos hb']
              exact ⟨h1, h2⟩
            | false =>
              simp only [firstQualifyingPlain, extract_body_walk, lastPlainContent,
                firstHtmlContent, hatt, hct, hht, hb, hce, Bool.not_false,
                Bool.true_and, Bool.false_and, Bool.and_true, bne, Bool.not_true,
                reduceIte, if_bool_true, if_bool_false, Option.some.injEq] at h ⊢
              have hce' : p.content ≠ "" := by
                intro hx
                rw [hx] at hce
                cases hce
              obtain ⟨h1, h2⟩ := ih h body p.content
              rw [if_neg hce'] at h2
              rw [if_pos hb']
              exact ⟨h1, h2⟩
          | false =>
            have hb' : html_body ≠ "" := by
              intro hx
              rw [hx] at hb
              cases hb
            simp only [firstQualifyingPlain, extract_body_walk, lastPlainContent,
              firstHtmlContent, hatt, hct, hht, hb, Bool.not_false, Bool.true_and,
              Bool.false_and, Bool.and_false, reduceIte, if_bool_true, if_bool_false, Option.some.injEq] at h ⊢
            obtain ⟨h1, h2⟩ := ih h body html_body
            rw [if_neg hb'] at h2
            rw [if_neg hb']
            exact ⟨h1, h2⟩
        | false =>
          simp only [firstQualifyingPlain, extract_body_walk, lastPlainContent,
            firstHtmlContent, hatt, hct, hht, Bool.not_false, Bool.true_and,
            Bool.false_and, reduceIte, if_bool_true, if_bool_false, Option.some.injEq] at h ⊢
          exact ih h body html_body

/-- C6 counterexample input: a short `text/plain` part followed by a long
`text/html` part. -/
def cexHtmlPart : String :=
  "<p>0123456789012345678901234567890123456789012345678901234567890</p>"

/-- C6 counterexample part list. -/
def cexParts : List Part :=
  [⟨"text/plain", "", "hi"⟩, ⟨"text/html", "", cexHtmlPart⟩]

/-- C6 counterexample: no `text/plain` part qualifies (the only one has
trimmed length 2), a `text/html` part is available, yet the extractor keeps
the short plain content `"hi"` and does not fall back to HTML conversion. -/
theorem extractor_part_preference_counterexample :
    firstQualifyingPlain cexParts = none ∧
    firstHtmlContent cexParts = some cexHtmlPart ∧
    _extract_body_choice (fun s => s) cexParts = "hi" ∧
    ("hi" : String) ≠ cexHtmlPart :=
  ⟨by decide, by decide, by decide, by decide⟩

/-- C6 (amended): the extractor uses the first non-attachment `text/plain`
part with nonempty content of trimmed length exceeding 50; when none
qualifies, the body is the content of the last non-attachment `text/plain`
part, and only when that is empty (or no `text/plain` part exists) does it
fall back to converting the first non-attachment `text/html` part with
nonempty content (empty body if none exists). -/
theorem extractor_part_preference_amended (f : String → String) (parts : List Part) :
    _extract_body_choice f parts =
      (match firstQualifyingPlain parts with
       | some b => b
       | none =>
         match lastPlainContent parts with
         | some b =>
           if b = "" then
             (match firstHtmlContent parts with
              | some h => f h
              | none => "")
           else b
         | none =>
           (match firstHtmlContent parts with
            | some h => f h
            | none => "")) := by
  unfold _extract_body_choice
  dsimp only
  cases hq : firstQualifyingPlain parts with
  | some b =>
    have h1 := extract_body_walk_qual hq "" ""
    have hb : b ≠ "" := firstQualifyingPlain_ne_empty hq
    rw [h1]
    rw [if_neg (by
      intro hc
      rw [Bool.and_eq_true, beq_iff_eq] at hc
      exact hb hc.1)]
  | none =>
    obtain ⟨h1, h2⟩ := extract_body_walk_no_qual hq "" ""
    rw [if_pos rfl] at h2
    cases hl : lastPlainContent parts with
    | some b =>
      rw [hl] at h1
      simp only [Option.getD_some] at h1
      cases hh : firstHtmlContent parts with
      | some h0 =>
        rw [hh] at h2
        simp only [Option.getD_some] at h2
        have hne : h0 ≠ "" := firstHtmlContent_ne_empty hh
        dsimp only
        rw [h1, h2]
        by_cases hbe : b = ""
        · rw [if_pos (by
            rw [Bool.and_eq_true, beq_iff_eq]
            exact ⟨hbe, bne_iff_ne.mpr hne⟩)]
          rw [if_pos hbe]
        · rw [if_neg (by
            intro hc
            rw [Bool.and_eq_true, beq_iff_eq] at hc
            exact hbe hc.1)]
          rw [if_neg hbe]
      | none =>
        rw [hh] at h2
        simp only [Option.getD_none] at h2
        dsimp only
        rw [h1, h2]
        by_cases hbe : b = ""
        · rw [if_neg (by
            intro hc
            rw [Bool.and_eq_true] at hc
            exact absurd hc.2 (by decide))]
          rw [if_pos hbe]
          exact hbe
        · rw [if_neg (by
            intro hc
            rw [Bool.and_eq_true, beq_iff_eq] at hc
            exact hbe hc.1)]
          rw [if_neg hbe]
    | none =>
      rw [hl] at h1
      simp only [Option.getD_none] at h1
      cases hh : firstHtmlContent parts with
      | some h0 =>
        rw [hh] at h2
        simp only [Option.getD_some] at h2
        have hne : h0 ≠ "" := firstHtmlContent_ne_empty hh
        dsimp only
        rw [h1, h2]
        rw [if_pos (by
          rw [Bool.and_eq_true, beq_iff_eq]
          exact ⟨rfl, bne_iff_ne.mpr hne⟩)]
      | none =>
        rw [hh] at h2
        simp only [Option.getD_none] at h2
        dsimp only
        rw [h1, h2]
        rw [if_neg (by
          intro hc
          rw [Bool.and_eq_true] at hc
          exact absurd hc.2 (by decide))]

/-! ### Invisible-content normalizer (`PhishingDetector._remove_invisible_unicode`) -/

/-- `chr(num)` as used by `html.unescape`'s numeric character references:
surrogate or out-of-range code points become U+FFFD (the windows-1252
`_invalid_charrefs` and `_invalid_codepoints` special cases of
`html/__init__.py` are not modelled). -/
def charrefChar (n : Nat) : List Char :=
  if 0xD800 ≤ n ∧ n ≤ 0xDFFF then ['\uFFFD']
  else if 0x10FFFF < n then ['\uFFFD']
  else [Char.ofNat n]

/-- Decimal digit run to a number. -/
def digitsToNat (l : List Char) : Nat :=
  l.foldl (fun acc c => acc * 10 + (c.toNat - 48)) 0

/-- Value of one hexadecimal digit. -/
def hexDigitVal (c : Char) : Nat :=
  if c.isDigit then c.toNat - 48
  else if 'a' ≤ c ∧ c ≤ 'f' then c.toNat - 87
  else c.toNat - 55

/-- Hexadecimal digit run to a number. -/
def hexToNat (l : List Char) : Nat :=
  l.foldl (fun acc c => acc * 16 + hexDigitVal c) 0

/-- Is the character a hexadecimal digit? -/
def isHexDigitChar (c : Char) : Bool :=
  c.isDigit || decide ('a' ≤ c ∧ c ≤ 'f') || decide ('A' ≤ c ∧ c ≤ 'F')

/-- The name-character class of `html._charref`: anything outside
tab, newline, form feed, space, `<`, `&`, `#`, `;`. -/
def isNameRefChar (c : Char) : Bool :=
  !(c == '\t' || c == '\n' || c == '\x0c' || c == ' ' || c == '<' || c == '&'
    || c == '#' || c == ';')

/-- Representative fragment of the `html5` named-character-reference table
consulted by `html.unescape` (keys appear with and without the trailing
semicolon, as in `html/__init__.py`). -/
def html5Refs : List (List Char × List Char) :=
  [("amp;".data, "&".data), ("amp".data, "&".data),
   ("lt;".data, "<".data), ("lt".data, "<".data),
   ("gt;".data, ">".data), ("gt".data, ">".data),
   ("quot;".data, "\"".data), ("quot".data, "\"".data),
   ("nbsp;".data, "\u00A0".data), ("nbsp".data, "\u00A0".data)]

/-- Association lookup on the reference table. -/
def assocLookup (key : List Char) : List (List Char × List Char) → Option (List Char)
  | [] => none
  | (k, v) :: rest => if key = k then some v else assocLookup key rest

/-- Python's longest-prefix fallback for a named reference without its own
table entry: try the prefixes of `s` of length `x`, `x-1`, …, `2`; on a hit
the suffix is carried over unchanged. -/
def refFallback (s : List Char) : Nat → Option (List Char × List Char)
  | 0 => none
  | 1 => none
  | (x+2) =>
    match assocLookup (s.take (x+2)) html5Refs with
    | some v => some (v, s.drop (x+2))
    | none => refFallback s (x+1)

/-- The decimal branch `#[0-9]+;?` of `_charref` (t is the text after `#`). -/
def charrefDec (t : List Char) : Option (List Char × Nat) :=
  let digits := t.takeWhile Char.isDigit
  if digits = [] then none
  else if (t.drop digits.length).head? = some ';' then
    some (charrefChar (digitsToNat digits), 1 + digits.length + 1)
  else some (charrefChar (digitsToNat digits), 1 + digits.length)

/-- The hexadecimal branch `#[xX][0-9a-f]+;?` (t2 is the text after `#x`). -/
def charrefHex (t2 : List Char) : Option (List Char × Nat) :=
  let hex := t2.takeWhile isHexDigitChar
  if hex = [] then none
  else if (t2.drop hex.length).head? = some ';' then
    some (charrefChar (hexToNat hex), 2 + hex.length + 1)
  else some (charrefChar (hexToNat hex), 2 + hex.length)

/-- The named-reference branch of `_charref`. -/
def charrefNamed (l : List Char) : Option (List Char × Nat) :=
  let name := (l.takeWhile isNameRefChar).take 32
  if name = [] then none
  else
    let hasSemi := (l.drop name.length).head? = some ';'
    let s := if hasSemi then name ++ [';'] else name
    let consumed := if hasSemi then name.length + 1 else name.length
    match assocLookup s html5Refs with
    | some v => some (v, consumed)
    | none =>
      match refFallback s (s.length - 1) with
      | some (v, leftover) => some (v ++ leftover, consumed)
      | none => some ('&' :: s, consumed)

/-- One match attempt of the `_charref` pattern on the text following a `&`:
returns the replacement text and the number of consumed characters (not
counting the `&` itself), or `none` when no reference matches here. -/
def charrefStep (l : List Char) : Option (List Char × Nat) :=
  match l with
  | c :: t =>
    if c = '#' then
      match t with
      | x :: t2 => if x == 'x' || x == 'X' then charrefHex t2 else charrefDec t
      | [] => charrefDec t
    else charrefNamed l
  | [] => charrefNamed l

/-- Python `html.unescape` (`html/__init__.py`): replace each character
reference found by scanning left to right; scanning resumes after the
replaced text.  The driver recurses on a fuel bound (initialised to the text
length by `htmlUnescape`), which suffices because every scanning step
consumes at least one character. -/
def htmlUnescapeAux : Nat → List Char → List Char
  | _, [] => []
  | 0, l => l
  | fuel + 1, c :: rest =>
    if c = '&' then
      match charrefStep rest with
      | some (repl, n) => repl ++ htmlUnescapeAux fuel (rest.drop n)
      | none => '&' :: htmlUnescapeAux fuel rest
    else c :: htmlUnescapeAux fuel rest

/-- Python `html.unescape` on a character list. -/
def htmlUnescape (l : List Char) : List Char := htmlUnescapeAux l.length l

/-- `re.sub(r'(\S)\u00AD(\S)', r'\1 \2', text)`: a soft hyphen sitting
between two non-whitespace characters is replaced by a single joining space;
scanning resumes after the match. -/
def subSoftHyphenJoinAux : Nat → List Char → List Char
  | 0, l => l
  | _, [] => []
  | _ + 1, [a] => [a]
  | _ + 1, [a, b] => [a, b]
  | fuel + 1, a :: shy :: c :: rest2 =>
    if shy == '\u00AD' && !isPyWhitespaceChar a && !isPyWhitespaceChar c then
      a :: ' ' :: c :: subSoftHyphenJoinAux fuel rest2
    else a :: subSoftHyphenJoinAux fuel (shy :: c :: rest2)

/-- The soft-hyphen substitution on a character list (the fuel of the driver
is the text length; every step consumes at least one character). -/
def subSoftHyphenJoin (l : List Char) : List Char := subSoftHyphenJoinAux l.length l

/-- Sequential `str.replace(ch, ' ')` for each character of `bad`. -/
def mapToSpaceCL (bad : List Char) (l : List Char) : List Char :=
  l.map (fun c => if bad.contains c then ' ' else c)

/-- The zero-width characters deleted at lines 234–237 (`\u200B`, `\u200C`,
`\u200D`, `\uFEFF` are each replaced by a space). -/
def zwChars : List Char := ['\u200B', '\u200C', '\u200D', '\uFEFF']

/-- The bidi/formatting controls of line 239. -/
def bidiChars : List Char :=
  ['\u200E', '\u200F', '\u202A', '\u202B', '\u202C', '\u202D', '\u202E',
   '\u2060', '\u180E', '\u061C']

/-- The non-ASCII space variants of lines 241–246. -/
def nbspChars : List Char :=
  ['\u00A0', '\u2002', '\u2003', '\u2009', '\u200A', '\u202F']

/-- The combining-mark ranges removed at line 248
(`[\u0300-\u036f\u0483-\u0489\u034f\u115f\u1160]`). -/
def isCombiningMark1 (c : Char) : Bool :=
  (decide (0x300 ≤ c.toNat) && decide (c.toNat ≤ 0x36F))
    || (decide (0x483 ≤ c.toNat) && decide (c.toNat ≤ 0x489))
    || c.toNat == 0x34F || c.toNat == 0x115F || c.toNat == 0x1160

/-- `re.sub(r'  +', ' ', text)`: every run of two or more spaces becomes a
single space. -/
def collapseDoubleSpaces : List Char → List Char
  | [] => []
  | c :: rest =>
    if c = ' ' ∧ rest.head? = some ' ' then collapseDoubleSpaces rest
    else c :: collapseDoubleSpaces rest

/-- The transformation chain of `_remove_invisible_unicode` (lines 229–250),
in source order. -/
def invisPipeline (l : List Char) : List Char :=
  collapseDoubleSpaces
    (List.filter (fun c => !isCombiningMark1 c)
      (mapToSpaceCL nbspChars
        (mapToSpaceCL bidiChars
          (mapToSpaceCL zwChars
            (List.filter (fun c => c != '\u00AD')
              (subSoftHyphenJoin
                (htmlUnescape l)))))))

/-- `PhishingDetector._remove_invisible_unicode`. -/
def _remove_invisible_unicode (text : String) : String :=
  if text = "" then "" else ⟨invisPipeline text.data⟩

/-- C7 counterexample: `html.unescape` is applied first, and a doubly-encoded
ampersand reference decodes one level per pass, so normalization is not
idempotent. -/
theorem normalizer_idempotence_counterexample :
    _remove_invisible_unicode "&#38;#38;" = "&#38;" ∧
    _remove_invisible_unicode (_remove_invisible_unicode "&#38;#38;") = "&" ∧
    _remove_invisible_unicode (_remove_invisible_unicode "&#38;#38;")
      ≠ _remove_invisible_unicode "&#38;#38;" :=
  ⟨by decide, by decide, by decide⟩

theorem containsChar_false {l : List Char} {a : Char}
    (h : containsChar l a = false) : ∀ c ∈ l, c ≠ a := by
  induction l with
  | nil => intro c hc; cases hc
  | cons x rest ih =>
    intro c hc
    rw [containsChar, List.contains_cons] at h
    rcases List.mem_cons.mp hc with hcx | hcr
    · subst hcx
      intro hca
      subst hca
      simp at h
    · exact ih (by rw [containsChar]; exact (Bool.or_eq_false_iff.mp h).2) c hcr

theorem htmlUnescapeAux_no_amp {l : List Char} (h : ∀ c ∈ l, c ≠ '&') :
    ∀ fuel, htmlUnescapeAux fuel l = l := by
  induction l with
  | nil => intro fuel; cases fuel <;> rfl
  | cons c rest ih =>
    intro fuel
    cases fuel with
    | zero => rfl
    | succ f =>
      rw [htmlUnescapeAux]
      rw [if_neg (h c (List.mem_cons_self c rest))]
      rw [ih (fun x hx => h x (List.mem_cons_of_mem c hx)) f]

theorem htmlUnescape_no_amp {l : List Char} (h : ∀ c ∈ l, c ≠ '&') :
    htmlUnescape l = l :=
  htmlUnescapeAux_no_amp h l.length

theorem subSoftHyphenJoinAux_no_shy :
    ∀ (fuel : Nat) (l : List Char), (∀ c ∈ l, c ≠ '­') →
      subSoftHyphenJoinAux fuel l = l := by
  intro fuel
  induction fuel with
  | zero =>
    intro l _
    cases l <;> rfl
  | succ f ih =>
    intro l h
    match l with
    | [] => rfl
    | [a] => rfl
    | [a, b] => rfl
    | a :: shy :: c :: rest2 =>
      rw [subSoftHyphenJoinAux]
      have hshy : shy ≠ '­' :=
        h shy (List.mem_cons_of_mem a (List.mem_cons_self shy (c :: rest2)))
      rw [if_neg (by
        intro hc
        rw [Bool.and_eq_true, Bool.and_eq_true] at hc
        exact hshy (beq_iff_eq.mp hc.1.1))]
      rw [ih (shy :: c :: rest2) (fun x hx => h x (List.mem_cons_of_mem a hx))]

theorem subSoftHyphenJoin_no_shy {l : List Char} (h : ∀ c ∈ l, c ≠ '­') :
    subSoftHyphenJoin l = l :=
  subSoftHyphenJoinAux_no_shy l.length l h

theorem filterCL_id {p : Char → Bool} {l : List Char} (h : ∀ c ∈ l, p c = true) :
    List.filter p l = l := by
  induction l with
  | nil => rfl
  | cons x rest ih =>
    rw [List.filter_cons, if_pos (h x (List.mem_cons_self x rest))]
    rw [ih (fun c hc => h c (List.mem_cons_of_mem x hc))]

theorem mapToSpaceCL_id {bad l : List Char} (h : ∀ c ∈ l, bad.contains c = false) :
    mapToSpaceCL bad l = l := by
  unfold mapToSpaceCL
  induction l with
  | nil => rfl
  | cons x rest ih =>
    rw [List.map_cons]
    rw [if_neg (by rw [h x (List.mem_cons_self x rest)]; exact Bool.false_ne_true)]
    rw [ih (fun c hc => h c (List.mem_cons_of_mem x hc))]

/-- The output of the space-collapse has no two adjacent spaces. -/
def noDoubleSpace (l : List Char) : Prop :=
  List.Chain' (fun a b => ¬(a = ' ' ∧ b = ' ')) l

theorem collapseDoubleSpaces_id {l : List Char} (h : noDoubleSpace l) :
    collapseDoubleSpaces l = l := by
  induction l with
  | nil => rfl
  | cons c rest ih =>
    rw [collapseDoubleSpaces]
    obtain ⟨hhead, htail⟩ := List.chain'_cons'.mp h
    rw [if_neg ?hg]
    case hg =>
      intro ⟨hc, hr⟩
      cases rest with
      | nil => cases hr
      | cons d rest2 =>
        simp only [List.head?_cons, Option.some.injEq] at hr
        exact hhead d rfl ⟨hc, hr⟩
    rw [ih htail]

theorem collapseDoubleSpaces_head {l : List Char} :
    (collapseDoubleSpaces l).head? = l.head? := by
  induction l with
  | nil => rfl
  | cons c rest ih =>
    rw [collapseDoubleSpaces]
    split_ifs with hg
    · rw [ih, hg.2, hg.1]
      rfl
    · rfl

theorem collapseDoubleSpaces_chain (l : List Char) :
    noDoubleSpace (collapseDoubleSpaces l) := by
  induction l with
  | nil => exact List.chain'_nil
  | cons c rest ih =>
    rw [collapseDoubleSpaces]
    split_ifs with hg
    · exact ih
    · rw [noDoubleSpace, List.chain'_cons']
      refine ⟨?_, ih⟩
      intro y hy
      intro ⟨hc, hy'⟩
      rw [collapseDoubleSpaces_head] at hy
      cases rest with
      | nil => cases hy
      | cons d rest2 =>
        simp only [List.head?_cons, Option.some.injEq] at hy
        exact hg ⟨hc, by rw [List.head?_cons, hy, hy']⟩

theorem mem_collapseDoubleSpaces {c : Char} {l : List Char}
    (h : c ∈ collapseDoubleSpaces l) : c ∈ l := by
  induction l with
  | nil => cases h
  | cons x rest ih =>
    rw [collapseDoubleSpaces] at h
    split_ifs at h with hg
    · exact List.mem_cons_of_mem x (ih h)
    · rcases List.mem_cons.mp h with hcx | hcr
      · exact hcx ▸ List.mem_cons_self x rest
      · exact List.mem_cons_of_mem x (ih hcr)

theorem mem_subSoftHyphenJoinAux {c : Char} :
    ∀ (fuel : Nat) (l : List Char), c ∈ subSoftHyphenJoinAux fuel l →
      c ∈ l ∨ c = ' ' := by
  intro fuel
  induction fuel with
  | zero =>
    intro l h
    cases l <;> exact Or.inl h
  | succ f ih =>
    intro l h
    match l with
    | [] => exact Or.inl h
    | [a] => exact Or.inl h
    | [a, b] => exact Or.inl h
    | a :: shy :: d :: rest2 =>
      rw [subSoftHyphenJoinAux] at h
      split_ifs at h with hg
      · simp only [List.mem_cons] at h ⊢
        rcases h with h1 | h1 | h1 | h1
        · exact Or.inl (Or.inl h1)
        · exact Or.inr h1
        · exact Or.inl (Or.inr (Or.inr (Or.inl h1)))
        · rcases ih rest2 h1 with h4 | h4
          · exact Or.inl (Or.inr (Or.inr (Or.inr h4)))
          · exact Or.inr h4
      · simp only [List.mem_cons] at h ⊢
        rcases h with h1 | h1
        · exact Or.inl (Or.inl h1)
        · rcases ih (shy :: d :: rest2) h1 with h4 | h4
          · simp only [List.mem_cons] at h4
            exact Or.inl (Or.inr h4)
          · exact Or.inr h4

theorem mem_subSoftHyphenJoin {c : Char} {l : List Char}
    (h : c ∈ subSoftHyphenJoin l) : c ∈ l ∨ c = ' ' :=
  mem_subSoftHyphenJoinAux l.length l h

theorem mem_mapToSpaceCL {bad : List Char} {c : Char} {l : List Char}
    (h : c ∈ mapToSpaceCL bad l) : (c ∈ l ∧ bad.contains c = false) ∨ c = ' ' := by
  unfold mapToSpaceCL at h
  obtain ⟨x, hx, hxc⟩ := List.mem_map.mp h
  split_ifs at hxc with hb
  · exact Or.inr hxc.symm
  · rw [← hxc]
    refine Or.inl ⟨hx, ?_⟩
    cases hcc : bad.contains x with
    | false => rfl
    | true => exact absurd hcc hb

theorem invisPipeline_chars {l : List Char} (hamp : ∀ c ∈ l, c ≠ '&') :
    (∀ c ∈ invisPipeline l,
      c ≠ '&' ∧ c ≠ '­' ∧ zwChars.contains c = false ∧
      bidiChars.contains c = false ∧ nbspChars.contains c = false ∧
      isCombiningMark1 c = false) ∧
    noDoubleSpace (invisPipeline l) := by
  unfold invisPipeline
  rw [htmlUnescape_no_amp hamp]
  refine ⟨?_, collapseDoubleSpaces_chain _⟩
  intro c hc
  by_cases hsp : c = ' '
  · subst hsp
    exact ⟨by decide, by decide, by decide, by decide, by decide, by decide⟩
  have h7 := mem_collapseDoubleSpaces hc
  obtain ⟨h6, hcombB⟩ := List.mem_filter.mp h7
  have hcomb : isCombiningMark1 c = false := by
    cases hcv : isCombiningMark1 c with
    | false => rfl
    | true => rw [hcv] at hcombB; cases hcombB
  rcases mem_mapToSpaceCL h6 with ⟨h5, hnbsp⟩ | hspc
  swap
  · exact absurd hspc hsp
  rcases mem_mapToSpaceCL h5 with ⟨h4, hbidi⟩ | hspc
  swap
  · exact absurd hspc hsp
  rcases mem_mapToSpaceCL h4 with ⟨h3, hzw⟩ | hspc
  swap
  · exact absurd hspc hsp
  obtain ⟨h2, hshyB⟩ := List.mem_filter.mp h3
  have hshy : c ≠ '­' := bne_iff_ne.mp hshyB
  rcases mem_subSoftHyphenJoin h2 with h1 | hspc
  swap
  · exact absurd hspc hsp
  exact ⟨hamp c h1, hshy, hzw, hbidi, hnbsp, hcomb⟩

theorem invisPipeline_fixed {l : List Char} (hamp : ∀ c ∈ l, c ≠ '&') :
    invisPipeline (invisPipeline l) = invisPipeline l := by
  obtain ⟨hchars, hchain⟩ := invisPipeline_chars hamp
  rw [invisPipeline]
  rw [htmlUnescape_no_amp (fun c hc => (hchars c hc).1)]
  rw [subSoftHyphenJoin_no_shy (fun c hc => (hchars c hc).2.1)]
  rw [filterCL_id (fun c hc => bne_iff_ne.mpr (hchars c hc).2.1)]
  rw [mapToSpaceCL_id (fun c hc => (hchars c hc).2.2.1)]
  rw [mapToSpaceCL_id (fun c hc => (hchars c hc).2.2.2.1)]
  rw [mapToSpaceCL_id (fun c hc => (hchars c hc).2.2.2.2.1)]
  rw [filterCL_id (fun c hc => by rw [(hchars c hc).2.2.2.2.2]; rfl)]
  rw [collapseDoubleSpaces_id hchain]

/-- C7 (amended): the invisible-content normalizer is idempotent on every
input containing no `&` (no HTML character reference): entity decoding is the
only non-idempotent rule, as the counterexample shows. -/
theorem normalizer_idempotent_amended (s : String)
    (h : containsChar s.data '&' = false) :
    _remove_invisible_unicode (_remove_invisible_unicode s)
      = _remove_invisible_unicode s := by
  have hamp := containsChar_false h
  by_cases hs : s = ""
  · subst hs
    rfl
  · have hinner : _remove_invisible_unicode s = ⟨invisPipeline s.data⟩ := by
      rw [_remove_invisible_unicode, if_neg hs]
    rw [hinner]
    by_cases hz : (⟨invisPipeline s.data⟩ : String) = ""
    · rw [hz]
      rfl
    · rw [_remove_invisible_unicode, if_neg hz]
      show (⟨invisPipeline (invisPipeline s.data)⟩ : String) = ⟨invisPipeline s.data⟩
      rw [invisPipeline_fixed hamp]

/-- C7 (amended) witness: a concrete ampersand-free string with a zero-width
space normalizes to a fixed point. -/
theorem normalizer_idempotent_amended_witness :
    containsChar "a​b".data '&' = false ∧
    _remove_invisible_unicode (_remove_invisible_unicode "a​b")
      = _remove_invisible_unicode "a​b" :=
  ⟨by decide, normalizer_idempotent_amended "a​b" (by decide)⟩

/-! ### Canonicalizer (`PhishingDetector._clean_text`) -/

/-- ASCII model of the regex `\w` class. -/
def isWordChar (c : Char) : Bool := c.isAlphanum || c == '_'

/-- Word-ness of an optional character; the ends of the string count as
non-word for `\b`. -/
def wordness : Option Char → Bool
  | none => false
  | some c => isWordChar c

/-- A `\b` word boundary between two (optional) characters. -/
def atBoundary (prev next : Option Char) : Bool :=
  wordness prev != wordness next

/-- Case-insensitive literal match: strips the pattern (given in lowercase)
from the front of the text, returning the rest. -/
def stripCI : List Char → List Char → Option (List Char)
  | [], l => some l
  | _ :: _, [] => none
  | p :: ps, c :: cs => if c.toLower == p then stripCI ps cs else none

/-- `\s*`. -/
def dropWs (l : List Char) : List Char := l.dropWhile isPyWhitespaceChar

/-- `\s+`: at least one whitespace character. -/
def wsPlus (l : List Char) : Option (List Char) :=
  match l with
  | c :: rest => if isPyWhitespaceChar c then some (dropWs rest) else none
  | [] => none

/-- Generic model of `re.sub(pattern, ' ', text)` for the patterns below: the
matcher `m` receives the character before the scan position (for `\b`) and
the remaining text; a successful match returns the text after the match and
the whole match is replaced by one space.  Scanning resumes after the match;
a match that would consume nothing is ignored (every pattern below consumes
at least one character).  Fuel is the text length. -/
def subToSpaceAux (m : Option Char → List Char → Option (List Char)) :
    Nat → Option Char → List Char → List Char
  | 0, _, l => l
  | _, _, [] => []
  | fuel + 1, prev, c :: rest =>
    match m prev (c :: rest) with
    | some rem =>
      if rem.length ≤ rest.length then
        ' ' :: subToSpaceAux m fuel
          (some (((c :: rest).take (rest.length + 1 - rem.length)).getLastD c)) rem
      else c :: subToSpaceAux m fuel (some c) rest
    | none => c :: subToSpaceAux m fuel (some c) rest

/-- `re.sub(pattern, ' ', text)` with matcher `m`. -/
def subToSpace (m : Option Char → List Char → Option (List Char))
    (l : List Char) : List Char :=
  subToSpaceAux m l.length none l

theorem subToSpaceAux_length (m : Option Char → List Char → Option (List Char)) :
    ∀ (fuel : Nat) (prev : Option Char) (l : List Char),
      (subToSpaceAux m fuel prev l).length ≤ l.length := by
  intro fuel
  induction fuel with
  | zero =>
    intro prev l
    cases l <;> exact Nat.le_refl _
  | succ f ih =>
    intro prev l
    match l with
    | [] => exact Nat.le_refl _
    | c :: rest =>
      rw [subToSpaceAux]
      cases hm : m prev (c :: rest) with
      | none =>
        simp only [List.length_cons]
        exact Nat.succ_le_succ (ih (some c) rest)
      | some rem =>
        dsimp only
        split_ifs with h
        · simp only [List.length_cons]
          exact Nat.succ_le_succ (Nat.le_trans (ih _ rem) h)
        · simp only [List.length_cons]
          exact Nat.succ_le_succ (ih (some c) rest)

theorem subToSpace_length (m : Option Char → List Char → Option (List Char))
    (l : List Char) : (subToSpace m l).length ≤ l.length :=
  subToSpaceAux_length m l.length none l

/-- Matcher for `&[a-z]+;` (IGNORECASE). -/
def mEntityName (_ : Option Char) (l : List Char) : Option (List Char) :=
  match l with
  | '&' :: t =>
    let run := t.takeWhile Char.isAlpha
    if run = [] then none
    else
      match t.drop run.length with
      | ';' :: rem => some rem
      | _ => none
  | _ => none

/-- Matcher for `&#\d+;`. -/
def mEntityNum (_ : Option Char) (l : List Char) : Option (List Char) :=
  match l with
  | '&' :: '#' :: t =>
    let run := t.takeWhile Char.isDigit
    if run = [] then none
    else
      match t.drop run.length with
      | ';' :: rem => some rem
      | _ => none
  | _ => none

/-- Matcher for `&#x[0-9a-f]+;` (IGNORECASE). -/
def mEntityHex (_ : Option Char) (l : List Char) : Option (List Char) :=
  match l with
  | '&' :: '#' :: x :: t =>
    if x == 'x' || x == 'X' then
      let run := t.takeWhile isHexDigitChar
      if run = [] then none
      else
        match t.drop run.length with
        | ';' :: rem => some rem
        | _ => none
    else none
  | _ => none

/-- Matcher for `\w+\s*\{[^}]+\}`. -/
def mCssBlock (_ : Option Char) (l : List Char) : Option (List Char) :=
  let w := l.takeWhile isWordChar
  if w = [] then none
  else
    match dropWs (l.drop w.length) with
    | '{' :: t3 =>
      let content := t3.takeWhile (fun c => c != '}')
      if content = [] then none
      else
        match t3.drop content.length with
        | '}' :: rem => some rem
        | _ => none
    | _ => none

/-- Matcher for `sup\s*\{[^}]+\}` (IGNORECASE). -/
def mSupBlock (_ : Option Char) (l : List Char) : Option (List Char) :=
  match stripCI "sup".data l with
  | some t1 =>
    match dropWs t1 with
    | '{' :: t3 =>
      let content := t3.takeWhile (fun c => c != '}')
      if content = [] then none
      else
        match t3.drop content.length with
        | '}' :: rem => some rem
        | _ => none
    | _ => none
  | none => none

/-- The value class `[^;{}\n]` of the inline-style declarations. -/
def isCssValueChar (c : Char) : Bool :=
  !(c == ';' || c == '{' || c == '}' || c == '\n')

/-- Characters of `[a-z-]` (IGNORECASE). -/
def isCssKeyChar (c : Char) : Bool := c.isAlpha || c == '-'

/-- Trailing-whitespace trim. -/
def dropTrailingWs (l : List Char) : List Char :=
  (l.reverse.dropWhile isPyWhitespaceChar).reverse

/-- Does `l` end with the given lowercase literal (case-insensitively)? -/
def endsWithCI (pat : List Char) (l : List Char) : Bool :=
  (l.reverse.take pat.length).reverse.map Char.toLower == pat

/-- Matcher for `[a-z-]+\s*:\s*[^;{}\n]+\s*!important\s*;?` (IGNORECASE); the
`\s*` stretches are assumed to stay inside the value class (no newline
crossing). -/
def mImportantDecl (_ : Option Char) (l : List Char) : Option (List Char) :=
  let key := l.takeWhile isCssKeyChar
  if key = [] then none
  else
    match dropWs (l.drop key.length) with
    | ':' :: t2 =>
      let t3 := dropWs t2
      let content := t3.takeWhile isCssValueChar
      if content = [] then none
      else
        let c1 := dropTrailingWs content
        if endsWithCI "!important".data c1 then
          let c2 := dropTrailingWs (c1.take (c1.length - "!important".length))
          if c2 = [] then none
          else
            match t3.drop content.length with
            | ';' :: rem => some rem
            | rem => some rem
        else none
    | _ => none

/-- Matcher for `[a-z-]+\s*:\s*[^;{}\n]+;` (IGNORECASE). -/
def mCssDecl (_ : Option Char) (l : List Char) : Option (List Char) :=
  let key := l.takeWhile isCssKeyChar
  if key = [] then none
  else
    match dropWs (l.drop key.length) with
    | ':' :: t2 =>
      let t3 := dropWs t2
      let content := t3.takeWhile isCssValueChar
      if content = [] then none
      else
        match t3.drop content.length with
        | ';' :: rem => some rem
        | _ => none
    | _ => none

/-- Matcher for `\br/[a-z0-9_]+\b\s*:?\s*` (IGNORECASE). -/
def mRedditRef (prev : Option Char) (l : List Char) : Option (List Char) :=
  match l with
  | r :: '/' :: t =>
    if (r == 'r' || r == 'R') && atBoundary prev (some r) then
      let run := t.takeWhile isWordChar
      if run = [] then none
      else
        let t2 := dropWs (t.drop run.length)
        match t2 with
        | ':' :: t3 => some (dropWs t3)
        | _ => some t2
    else none
  | _ => none

/-- One of several case-insensitive literal alternatives. -/
def stripAltCI (pats : List (List Char)) (l : List Char) : Option (List Char) :=
  match pats with
  | [] => none
  | p :: ps =>
    match stripCI p l with
    | some rem => some rem
    | none => stripAltCI ps l

/-- Matcher for
`(?:view|read|open)\s+(?:this\s+)?(?:email|message|newsletter)\s+(?:in|on)\s+(?:your\s+)?(?:browser|web)`
(IGNORECASE). -/
def mViewBrowser (_ : Option Char) (l : List Char) : Option (List Char) := do
  let t1 ← stripAltCI ["view".data, "read".data, "open".data] l
  let t2 ← wsPlus t1
  let t3 :=
    match stripCI "this".data t2 with
    | some u =>
      match wsPlus u with
      | some u2 => u2
      | none => t2
    | none => t2
  let t4 ← stripAltCI ["email".data, "message".data, "newsletter".data] t3
  let t5 ← wsPlus t4
  let t6 ← stripAltCI ["in".data, "on".data] t5
  let t7 ← wsPlus t6
  let t8 :=
    match stripCI "your".data t7 with
    | some u =>
      match wsPlus u with
      | some u2 => u2
      | none => t7
    | none => t7
  stripAltCI ["browser".data, "web".data] t8

/-- Matcher for `(?:unsubscribe|manage\s+preferences|update\s+email|update\s+settings)`
(IGNORECASE). -/
def mUnsubscribe (_ : Option Char) (l : List Char) : Option (List Char) :=
  match stripCI "unsubscribe".data l with
  | some rem => some rem
  | none =>
    match stripCI "manage".data l with
    | some t1 =>
      match wsPlus t1 with
      | some t2 => stripCI "preferences".data t2
      | none => none
    | none =>
      match stripCI "update".data l with
      | some t1 =>
        match wsPlus t1 with
        | some t2 =>
          match stripCI "email".data t2 with
          | some rem => some rem
          | none => stripCI "settings".data t2
        | none => none
      | none => none

/-- `https?://` prefix. -/
def stripHttp (l : List Char) : Option (List Char) :=
  match stripCI "http".data l with
  | some t1 =>
    let t2 := match t1 with
      | 's' :: u => u
      | 'S' :: u => u
      | u => u
    match t2 with
    | ':' :: '/' :: '/' :: u => some u
    | _ => none
  | none => none

/-- Matcher for `https?://[^\s]+\?[^\s]+`: the non-whitespace run after the
scheme must contain a `?` that is neither its first nor its last
character. -/
def mUrlQuery (_ : Option Char) (l : List Char) : Option (List Char) :=
  match stripHttp l with
  | some t =>
    let chunk := t.takeWhile (fun c => !isPyWhitespaceChar c)
    if ((chunk.drop 1).dropLast).contains '?' then some (t.drop chunk.length)
    else none
  | none => none

/-- Matcher for `https?://[^\s]*(?:track|pixel|beacon|analytics|click)[^\s]*`
(IGNORECASE): the non-whitespace run after the scheme contains one of the
keywords. -/
def mUrlTracking (_ : Option Char) (l : List Char) : Option (List Char) :=
  match stripHttp l with
  | some t =>
    let chunk := (t.takeWhile (fun c => !isPyWhitespaceChar c)).map Char.toLower
    if containsSub "track".data chunk || containsSub "pixel".data chunk
        || containsSub "beacon".data chunk || containsSub "analytics".data chunk
        || containsSub "click".data chunk then
      some (t.drop chunk.length)
    else none
  | none => none

/-- The local-part class `[a-z0-9._%+-]` (IGNORECASE). -/
def isEmailLocalChar (c : Char) : Bool :=
  c.isAlphanum || c == '.' || c == '_' || c == '%' || c == '+' || c == '-'

/-- The domain class `[a-z0-9.-]` (IGNORECASE). -/
def isEmailDomainChar (c : Char) : Bool :=
  c.isAlphanum || c == '.' || c == '-'

/-- Splits `l` at its last occurrence of `sep`: returns the part after it. -/
def afterLastSep (sep : Char) (l : List Char) : Option (List Char) :=
  if l.contains sep then
    some ((l.reverse.takeWhile (fun c => c != sep)).reverse)
  else none

/-- Matcher for `\b[a-z0-9._%+-]+@[a-z0-9.-]+\.[a-z]{2,}\b` (IGNORECASE),
without regex backtracking refinements: the maximal domain run must end, after
its last dot, in at least two letters, and a word boundary must follow. -/
def mEmailAddr (prev : Option Char) (l : List Char) : Option (List Char) :=
  match l with
  | c :: _ =>
    if isEmailLocalChar c && atBoundary prev (some c) then
      let lp := l.takeWhile isEmailLocalChar
      match l.drop lp.length with
      | '@' :: t =>
        let dom := t.takeWhile isEmailDomainChar
        match afterLastSep '.' dom with
        | some tld =>
          if 2 ≤ tld.length && tld.all Char.isAlpha && dom ≠ []
              && !wordness ((t.drop dom.length).head?) then
            some (t.drop dom.length)
          else none
        | none => none
      | _ => none
    else none
  | [] => none

/-- Matcher for `\b[a-f0-9]{32,}\b` (IGNORECASE). -/
def mHexToken (prev : Option Char) (l : List Char) : Option (List Char) :=
  match l with
  | c :: _ =>
    if isHexDigitChar c && atBoundary prev (some c) then
      let run := l.takeWhile isHexDigitChar
      if 32 ≤ run.length && !wordness ((l.drop run.length).head?) then
        some (l.drop run.length)
      else none
    else none
  | [] => none

/-- The base64 class `[A-Za-z0-9+/]`. -/
def isB64Char (c : Char) : Bool := c.isAlphanum || c == '+' || c == '/'

/-- Matcher for `\b[A-Za-z0-9+/]{40,}={0,2}\b`. -/
def mB64Token (prev : Option Char) (l : List Char) : Option (List Char) :=
  match l with
  | c :: _ =>
    if isB64Char c && atBoundary prev (some c) then
      let run := l.takeWhile isB64Char
      if 40 ≤ run.length then
        let t := l.drop run.length
        let eqs := (t.takeWhile (fun c => c == '=')).take 2
        let lastc := if eqs = [] then run.getLastD c else '='
        if atBoundary (some lastc) ((t.drop eqs.length).head?) then
          some (t.drop eqs.length)
        else none
      else none
    else none
  | [] => none

/-- The rule-line class `[_=\-|\\\/]`. -/
def isRuleChar (c : Char) : Bool :=
  c == '_' || c == '=' || c == '-' || c == '|' || c == '\\' || c == '/'

/-- Matcher for `[_=\-|\\\/]{3,}`. -/
def mRuleRun (_ : Option Char) (l : List Char) : Option (List Char) :=
  let run := l.takeWhile isRuleChar
  if 3 ≤ run.length then some (l.drop run.length) else none

/-- Matcher for `\.{3,}`. -/
def mDotsRun (_ : Option Char) (l : List Char) : Option (List Char) :=
  let run := l.takeWhile (fun c => c == '.')
  if 3 ≤ run.length then some (l.drop run.length) else none

/-- Matcher for `sent\s+from\s+my\s+\w+` (IGNORECASE). -/
def mSentFromMy (_ : Option Char) (l : List Char) : Option (List Char) := do
  let t1 ← stripCI "sent".data l
  let t2 ← wsPlus t1
  let t3 ← stripCI "from".data t2
  let t4 ← wsPlus t3
  let t5 ← stripCI "my".data t4
  let t6 ← wsPlus t5
  let run := t6.takeWhile isWordChar
  if run = [] then none else some (t6.drop run.length)

/-- Search for the non-greedy `.+?wrote:` tail: at least one non-newline
character, then the earliest `wrote:` (case-insensitive). -/
def findWroteTail : Nat → List Char → Option (List Char)
  | 0, _ => none
  | _ + 1, [] => none
  | fuel + 1, c :: rest =>
    if c == '\n' then none
    else
      match stripCI "wrote:".data rest with
      | some rem => some rem
      | none => findWroteTail fuel rest

/-- Matcher for `on\s+.+?wrote:` (IGNORECASE, no DOTALL: the gap may not
contain a newline). -/
def mOnWrote (_ : Option Char) (l : List Char) : Option (List Char) := do
  let t1 ← stripCI "on".data l
  let t2 ← wsPlus t1
  findWroteTail t2.length t2

/-- Matcher for `\b\d{10,}\b`. -/
def mLongDigits (prev : Option Char) (l : List Char) : Option (List Char) :=
  match l with
  | c :: _ =>
    if c.isDigit && atBoundary prev (some c) then
      let run := l.takeWhile Char.isDigit
      if 10 ≤ run.length && !wordness ((l.drop run.length).head?) then
        some (l.drop run.length)
      else none
    else none
  | [] => none

/-- Range test on code points. -/
def inRangeN (lo hi : Nat) (c : Char) : Bool :=
  decide (lo ≤ c.toNat) && decide (c.toNat ≤ hi)

/-- Line 504: `[̀-ͯ҃-҉֑-ׇֽֿׁׂׅׄ]`. -/
def inCombA (c : Char) : Bool :=
  inRangeN 0x300 0x36F c || inRangeN 0x483 0x489 c || inRangeN 0x591 0x5BD c
    || c.toNat == 0x5BF || c.toNat == 0x5C1 || c.toNat == 0x5C2
    || c.toNat == 0x5C4 || c.toNat == 0x5C5 || c.toNat == 0x5C7

/-- Line 505: `[ؐ-ًؚ-ٰٟۖ-ۜ۟-ۤۧۨ]`. -/
def inCombB (c : Char) : Bool :=
  inRangeN 0x610 0x61A c || inRangeN 0x64B 0x65F c || c.toNat == 0x670
    || inRangeN 0x6D6 0x6DC c || inRangeN 0x6DF 0x6E4 c
    || c.toNat == 0x6E7 || c.toNat == 0x6E8

/-- Line 506: `[۪-ܑۭܰ-݊ަ-ް߫-߳]`. -/
def inCombC (c : Char) : Bool :=
  inRangeN 0x6EA 0x6ED c || c.toNat == 0x711 || inRangeN 0x730 0x74A c
    || inRangeN 0x7A6 0x7B0 c || inRangeN 0x7EB 0x7F3 c

/-- Line 508: `[͏ᅟᅠ឴឵᠋-᠍]`. -/
def inCombD (c : Char) : Bool :=
  c.toNat == 0x34F || c.toNat == 0x115F || c.toNat == 0x1160
    || c.toNat == 0x17B4 || c.toNat == 0x17B5 || inRangeN 0x180B 0x180D c

/-- Lines 493–495: zero-width characters replaced by spaces. -/
def zwChars2 : List Char := ['​', '‌', '‍']

/-- Line 496: `[‎‏‪-‮⁠﻿᠎؜]`. -/
def bidiChars2 : List Char :=
  ['‎', '‏', '‪', '‫', '‬', '‭', '‮', '⁠', '﻿', '᠎', '؜']

/-- Line 502: `[     ]`. -/
def nbspChars2 : List Char := [' ', ' ', ' ', ' ', ' ']

/-- Line 514: `[{}!;%@#~^*]`. -/
def symbolChars : List Char := ['{', '}', '!', ';', '%', '@', '#', '~', '^', '*']

/-- Python `str.lower` on one character.  Unicode lowercasing is the
identity-or-single-character map of UnicodeData.txt except for `U+0130`
(LATIN CAPITAL LETTER I WITH DOT ABOVE), whose full lowercase mapping in
SpecialCasing.txt — the mapping CPython applies — is the two-character
sequence `"i" ++ U+0307`; outside ASCII the remaining single-character
mappings are not exercised by the properties proved here. -/
def pyLowerChar (c : Char) : List Char :=
  if c = '\u0130' then ['i', '\u0307'] else [c.toLower]

/-- Python `str.lower` over a whole text: each character is replaced by its
full lowercase mapping, so the result can be longer than the input. -/
def pyLower : List Char → List Char
  | [] => []
  | c :: rest => pyLowerChar c ++ pyLower rest

/-- Lines 487–537 of `phishing_detector.py`: the transformation chain of
`_clean_text` up to and including lowercasing, in source order. -/
def cleanPipeline (l : List Char) : List Char :=
  let t := htmlUnescape l
  let t := subToSpace mEntityName t
  let t := subToSpace mEntityNum t
  let t := subToSpace mEntityHex t
  let t := mapToSpaceCL zwChars2 t
  let t := mapToSpaceCL bidiChars2 t
  let t := subSoftHyphenJoin t
  let t := mapToSpaceCL ['\u00AD'] t
  let t := mapToSpaceCL ['\u00A0'] t
  let t := mapToSpaceCL nbspChars2 t
  let t := List.filter (fun c => !inCombA c) t
  let t := List.filter (fun c => !inCombB c) t
  let t := List.filter (fun c => !inCombC c) t
  let t := List.filter (fun c => !inCombD c) t
  let t := subToSpace mCssBlock t
  let t := subToSpace mSupBlock t
  let t := subToSpace mImportantDecl t
  let t := subToSpace mCssDecl t
  let t := mapToSpaceCL symbolChars t
  let t := subToSpace mRedditRef t
  let t := subToSpace mViewBrowser t
  let t := subToSpace mUnsubscribe t
  let t := subToSpace mUrlQuery t
  let t := subToSpace mUrlTracking t
  let t := subToSpace mEmailAddr t
  let t := subToSpace mHexToken t
  let t := subToSpace mB64Token t
  let t := subToSpace mRuleRun t
  let t := subToSpace mDotsRun t
  let t := subToSpace mSentFromMy t
  let t := subToSpace mOnWrote t
  let t := subToSpace mLongDigits t
  pyLower t

/-- Line 539: `re.sub(r'\s+', ' ', text)` — every whitespace run becomes one
space. -/
def subWsRuns : List Char → List Char
  | [] => []
  | c :: rest =>
    if isPyWhitespaceChar c then
      match rest.head? with
      | some d => if isPyWhitespaceChar d then subWsRuns rest else ' ' :: subWsRuns rest
      | none => [' ']
    else c :: subWsRuns rest

/-- Whitespace-separated chunks of a text, keeping empty chunks. -/
def splitChunks (l : List Char) : List (List Char) :=
  l.foldr
    (fun c acc =>
      if isPyWhitespaceChar c then [] :: acc
      else
        match acc with
        | [] => [[c]]
        | w :: ws => (c :: w) :: ws) []

/-- Python `text.split()`: whitespace-separated words, empties dropped. -/
def splitWsCL (l : List Char) : List (List Char) :=
  (splitChunks l).filter (fun w => !w.isEmpty)

/-- Line 544–545: keep words of length > 1 and the words `i`, `a`. -/
def filterShortTokens (ws : List (List Char)) : List (List Char) :=
  ws.filter (fun w => decide (1 < w.length) || w == ['i'] || w == ['a'])

/-- Lines 487–546: the candidate canonical text before the degeneracy
checks — cleaning chain, whitespace collapse and strip, token filter,
re-join with single spaces. -/
def cleanCandidate (l : List Char) : List Char :=
  List.intercalate [' ']
    (filterShortTokens (splitWsCL (trimCL (subWsRuns (cleanPipeline l)))))

/-- `PhishingDetector._clean_text` (lines 483–555): empty input gives `""`;
the candidate text is rejected as degenerate when its length is below 5 or it
holds fewer than two words. -/
def _clean_text (text : String) : String :=
  if text = "" then ""
  else
    let t2 := cleanCandidate text.data
    if t2.length < 5 then ""
    else if (splitWsCL t2).length < 2 then ""
    else ⟨t2⟩

theorem charrefChar_length (n : Nat) : (charrefChar n).length = 1 := by
  unfold charrefChar
  split_ifs <;> rfl

theorem assocLookup_val_len {k v : List Char}
    {t : List (List Char × List Char)} (ht : ∀ p ∈ t, p.2.length = 1)
    (h : assocLookup k t = some v) : v.length = 1 := by
  induction t with
  | nil => cases h
  | cons p rest ih =>
    rw [assocLookup] at h
    split_ifs at h with hk
    · cases h
      exact ht p (List.mem_cons_self p rest)
    · exact ih (fun q hq => ht q (List.mem_cons_of_mem p hq)) h

theorem html5Refs_val_len : ∀ p ∈ html5Refs, p.2.length = 1 := by decide

theorem refFallback_spec {s v leftover : List Char} :
    ∀ k, refFallback s k = some (v, leftover) →
      v.length = 1 ∧ leftover.length ≤ s.length := by
  intro k
  induction k with
  | zero => intro h; cases h
  | succ n ih =>
    intro h
    match n, h with
    | 0, h => cases h
    | m + 1, h =>
      rw [refFallback] at h
      revert h
      cases hl : assocLookup (s.take (m + 2)) html5Refs with
      | some v0 =>
        intro h
        cases h
        exact ⟨assocLookup_val_len html5Refs_val_len hl, by
          rw [List.length_drop]
          omega⟩
      | none =>
        intro h
        exact ih h

theorem length_takeWhileCL (p : Char → Bool) (l : List Char) :
    (l.takeWhile p).length ≤ l.length := by
  induction l with
  | nil => exact Nat.le_refl _
  | cons c rest ih =>
    rw [List.takeWhile_cons]
    split_ifs
    · simp only [List.length_cons]
      omega
    · simp only [List.length_nil, List.length_cons]
      omega

theorem length_dropWhileCL (p : Char → Bool) (l : List Char) :
    (l.dropWhile p).length ≤ l.length := by
  induction l with
  | nil => exact Nat.le_refl _
  | cons c rest ih =>
    rw [List.dropWhile_cons]
    split_ifs
    · simp only [List.length_cons]
      omega
    · exact Nat.le_refl _

theorem charrefDec_spec {t repl : List Char} {n : Nat}
    (h : charrefDec t = some (repl, n)) :
    repl.length ≤ 1 + n ∧ n ≤ 1 + t.length := by
  unfold charrefDec at h
  dsimp only at h
  have hle := length_takeWhileCL Char.isDigit t
  split_ifs at h with h1 h2
  · cases h
    refine ⟨by rw [charrefChar_length]; omega, ?_⟩
    have hne : t.drop (t.takeWhile Char.isDigit).length ≠ [] := by
      intro hx
      rw [hx] at h2
      cases h2
    have hlt : (t.takeWhile Char.isDigit).length < t.length := by
      by_contra hc
      apply hne
      rw [List.drop_eq_nil_iff]
      omega
    omega
  · cases h
    exact ⟨by rw [charrefChar_length]; omega, by omega⟩

theorem charrefHex_spec {t2 repl : List Char} {n : Nat}
    (h : charrefHex t2 = some (repl, n)) :
    repl.length ≤ 1 + n ∧ n ≤ 2 + t2.length := by
  unfold charrefHex at h
  dsimp only at h
  have hle := length_takeWhileCL isHexDigitChar t2
  split_ifs at h with h1 h2
  · cases h
    refine ⟨by rw [charrefChar_length]; omega, ?_⟩
    have hne : t2.drop (t2.takeWhile isHexDigitChar).length ≠ [] := by
      intro hx
      rw [hx] at h2
      cases h2
    have hlt : (t2.takeWhile isHexDigitChar).length < t2.length := by
      by_contra hc
      apply hne
      rw [List.drop_eq_nil_iff]
      omega
    omega
  · cases h
    exact ⟨by rw [charrefChar_length]; omega, by omega⟩

theorem charrefNamed_spec {l repl : List Char} {n : Nat}
    (h : charrefNamed l = some (repl, n)) :
    repl.length ≤ 1 + n ∧ n ≤ l.length := by
  unfold charrefNamed at h
  dsimp only at h
  have hle : ((l.takeWhile isNameRefChar).take 32).length ≤ l.length := by
    have h1 := List.length_take 32 (l.takeWhile isNameRefChar)
    have h2 := length_takeWhileCL isNameRefChar l
    omega
  set name := (l.takeWhile isNameRefChar).take 32 with hname
  by_cases h1 : name = []
  · rw [if_pos h1] at h
    cases h
  rw [if_neg h1] at h
  by_cases hsemi : (l.drop name.length).head? = some ';'
  · have hlt : name.length < l.length := by
      have hne : l.drop name.length ≠ [] := by
        intro hx
        rw [hx] at hsemi
        cases hsemi
      by_contra hc
      apply hne
      rw [List.drop_eq_nil_iff]
      omega
    rw [if_pos hsemi, if_pos hsemi] at h
    revert h
    cases ha : assocLookup (name ++ [';']) html5Refs with
    | some v =>
      intro h
      cases h
      have hv := assocLookup_val_len html5Refs_val_len ha
      exact ⟨by omega, by omega⟩
    | none =>
      cases hf : refFallback (name ++ [';']) ((name ++ [';']).length - 1) with
      | some pv =>
        match pv with
        | (v, leftover) =>
          intro h
          cases h
          obtain ⟨hv, hl2⟩ := refFallback_spec _ hf
          rw [List.length_append, List.length_singleton] at hl2
          constructor
          · rw [List.length_append, hv]
            omega
          · omega
      | none =>
        intro h
        cases h
        simp only [List.length_cons, List.length_append, List.length_singleton,
          List.length_nil]
        exact ⟨by omega, by omega⟩
  · rw [if_neg hsemi, if_neg hsemi] at h
    revert h
    cases ha : assocLookup name html5Refs with
    | some v =>
      intro h
      cases h
      have hv := assocLookup_val_len html5Refs_val_len ha
      exact ⟨by omega, by omega⟩
    | none =>
      cases hf : refFallback name (name.length - 1) with
      | some pv =>
        match pv with
        | (v, leftover) =>
          intro h
          cases h
          obtain ⟨hv, hl2⟩ := refFallback_spec _ hf
          constructor
          · rw [List.length_append, hv]
            omega
          · omega
      | none =>
        intro h
        cases h
        simp only [List.length_cons]
        exact ⟨by omega, by omega⟩

theorem charrefStep_spec {l repl : List Char} {n : Nat}
    (h : charrefStep l = some (repl, n)) :
    repl.length ≤ 1 + n ∧ n ≤ l.length := by
  match l with
  | [] => exact charrefNamed_spec h
  | c :: t =>
    rw [charrefStep.eq_def] at h
    dsimp only at h
    split_ifs at h with hc
    · match t, h with
      | [], h =>
        obtain ⟨h1, h2⟩ := charrefDec_spec h
        exact ⟨h1, by simp only [List.length_cons, List.length_nil] at h2 ⊢; omega⟩
      | x :: t2, h =>
        revert h
        dsimp only
        split_ifs with hx
        · intro h
          obtain ⟨h1, h2⟩ := charrefHex_spec h
          refine ⟨h1, ?_⟩
          simp only [List.length_cons]
          omega
        · intro h
          obtain ⟨h1, h2⟩ := charrefDec_spec h
          refine ⟨h1, ?_⟩
          simp only [List.length_cons] at h2 ⊢
          omega
    · obtain ⟨h1, h2⟩ := charrefNamed_spec h
      exact ⟨h1, h2⟩

theorem htmlUnescapeAux_length :
    ∀ (fuel : Nat) (l : List Char), (htmlUnescapeAux fuel l).length ≤ l.length := by
  intro fuel
  induction fuel with
  | zero =>
    intro l
    cases l <;> exact Nat.le_refl _
  | succ f ih =>
    intro l
    match l with
    | [] => exact Nat.le_refl _
    | c :: rest =>
      rw [htmlUnescapeAux]
      split_ifs with hc
      · cases hm : charrefStep rest with
        | none =>
          simp only [List.length_cons]
          exact Nat.succ_le_succ (ih rest)
        | some p =>
          match p with
          | (repl, n) =>
            obtain ⟨h1, h2⟩ := charrefStep_spec hm
            dsimp only
            rw [List.length_append]
            have h3 := ih (rest.drop n)
            have h4 := List.length_drop n rest
            simp only [List.length_cons]
            omega
      · simp only [List.length_cons]
        exact Nat.succ_le_succ (ih rest)

theorem htmlUnescape_length (l : List Char) : (htmlUnescape l).length ≤ l.length :=
  htmlUnescapeAux_length l.length l

theorem subSoftHyphenJoinAux_length :
    ∀ (fuel : Nat) (l : List Char), (subSoftHyphenJoinAux fuel l).length ≤ l.length := by
  intro fuel
  induction fuel with
  | zero =>
    intro l
    cases l <;> exact Nat.le_refl _
  | succ f ih =>
    intro l
    match l with
    | [] => exact Nat.le_refl _
    | [a] => exact Nat.le_refl _
    | [a, b] => exact Nat.le_refl _
    | a :: shy :: c :: rest2 =>
      rw [subSoftHyphenJoinAux]
      split_ifs with hg
      · simp only [List.length_cons]
        have := ih rest2
        omega
      · simp only [List.length_cons]
        have := ih (shy :: c :: rest2)
        simp only [List.length_cons] at this
        omega

theorem subSoftHyphenJoin_length (l : List Char) :
    (subSoftHyphenJoin l).length ≤ l.length :=
  subSoftHyphenJoinAux_length l.length l

theorem mapToSpaceCL_length (bad l : List Char) :
    (mapToSpaceCL bad l).length = l.length := by
  unfold mapToSpaceCL
  exact List.length_map l _

theorem subWsRuns_length (l : List Char) : (subWsRuns l).length ≤ l.length := by
  induction l with
  | nil => exact Nat.le_refl _
  | cons c rest ih =>
    rw [subWsRuns]
    split_ifs with hc
    · cases rest with
      | nil => exact Nat.le_refl _
      | cons d rest2 =>
        simp only [List.head?_cons]
        split_ifs with hd
        · simp only [List.length_cons] at ih ⊢
          omega
        · simp only [List.length_cons] at ih ⊢
          omega
    · simp only [List.length_cons]
      exact Nat.succ_le_succ ih

theorem trimCL_length (l : List Char) : (trimCL l).length ≤ l.length := by
  unfold trimCL
  rw [List.length_reverse]
  have h1 := length_dropWhileCL isPyWhitespaceChar l
  have h2 := length_dropWhileCL isPyWhitespaceChar
    (l.dropWhile isPyWhitespaceChar).reverse
  rw [List.length_reverse] at h2
  omega

theorem interLen_nil : (List.intercalate [' '] ([] : List (List Char))).length = 0 := rfl

theorem interLen_singleton (v : List Char) :
    (List.intercalate [' '] [v]).length = v.length := by
  rw [show List.intercalate [' '] [v] = v ++ [] from rfl]
  simp

theorem interLen_cons_cons (v w : List Char) (ws : List (List Char)) :
    (List.intercalate [' '] (v :: w :: ws)).length =
      v.length + 1 + (List.intercalate [' '] (w :: ws)).length := by
  rw [show List.intercalate [' '] (v :: w :: ws)
      = v ++ ' ' :: List.intercalate [' '] (w :: ws) from rfl]
  simp only [List.length_append, List.length_cons]
  omega

theorem filterNE_nil_cons (ws : List (List Char)) :
    (([] : List Char) :: ws).filter (fun w => !w.isEmpty)
      = ws.filter (fun w => !w.isEmpty) := rfl

theorem filterNE_cons (c : Char) (w : List Char) (ws : List (List Char)) :
    ((c :: w) :: ws).filter (fun x => !x.isEmpty)
      = (c :: w) :: ws.filter (fun x => !x.isEmpty) := rfl

theorem splitChunks_cons (c : Char) (rest : List Char) :
    splitChunks (c :: rest) =
      if isPyWhitespaceChar c then [] :: splitChunks rest
      else
        match splitChunks rest with
        | [] => [[c]]
        | w :: ws => (c :: w) :: ws := rfl

theorem splitChunks_join_length (l : List Char) :
    (List.intercalate [' '] (splitWsCL l)).length ≤ l.length ∧
      ∀ X, splitChunks l = [] :: X →
        (List.intercalate [' '] (X.filter (fun w => !w.isEmpty))).length + 1
          ≤ l.length := by
  induction l with
  | nil =>
    constructor
    · exact Nat.le_refl _
    · intro X hX
      rw [show splitChunks [] = ([] : List (List Char)) from rfl] at hX
      simp at hX
  | cons c rest ih =>
    obtain ⟨ih1, ih2⟩ := ih
    unfold splitWsCL at ih1 ⊢
    rw [splitChunks_cons]
    by_cases hc : isPyWhitespaceChar c
    · rw [if_pos hc]
      constructor
      · rw [filterNE_nil_cons]
        simp only [List.length_cons]
        omega
      · intro X hX
        injection hX with h1 h2
        subst h2
        simp only [List.length_cons]
        omega
    · rw [if_neg hc]
      cases hA : splitChunks rest with
      | nil =>
        constructor
        · rw [filterNE_cons, show (([c] : List Char) :: List.filter
              (fun x => !x.isEmpty) []) = [[c]] from rfl, interLen_singleton]
          simp only [List.length_cons, List.length_nil]
          omega
        · intro X hX
          simp at hX
      | cons w ws =>
        cases w with
        | nil =>
          have h2 := ih2 ws hA
          constructor
          · rw [filterNE_cons]
            cases hF : ws.filter (fun x => !x.isEmpty) with
            | nil =>
              rw [interLen_singleton]
              simp only [List.length_cons, List.length_nil]
              omega
            | cons v F2 =>
              rw [interLen_cons_cons]
              rw [hF] at h2
              simp only [List.length_cons, List.length_nil]
              omega
          · intro X hX
            injection hX with h1 h2
            exact absurd h1 (List.cons_ne_nil c [])
        | cons d w2 =>
          rw [hA, filterNE_cons] at ih1
          constructor
          · rw [filterNE_cons]
            cases hF : ws.filter (fun x => !x.isEmpty) with
            | nil =>
              rw [interLen_singleton]
              rw [hF, interLen_singleton] at ih1
              simp only [List.length_cons] at ih1 ⊢
              omega
            | cons v F2 =>
              rw [interLen_cons_cons]
              rw [hF, interLen_cons_cons] at ih1
              simp only [List.length_cons] at ih1 ⊢
              omega
          · intro X hX
            injection hX with h1 h2
            exact absurd h1 (List.cons_ne_nil c (d :: w2))

theorem interLen_le_cons (v : List Char) (ws : List (List Char)) :
    (List.intercalate [' '] ws).length
      ≤ (List.intercalate [' '] (v :: ws)).length := by
  cases ws with
  | nil => exact Nat.zero_le _
  | cons w ws2 =>
    rw [interLen_cons_cons]
    omega

theorem interLen_head_le (v : List Char) (ws : List (List Char)) :
    v.length ≤ (List.intercalate [' '] (v :: ws)).length := by
  cases ws with
  | nil =>
    rw [interLen_singleton]
  | cons w ws2 =>
    rw [interLen_cons_cons]
    omega

theorem inter_filter_length_le (p : List Char → Bool) (ws : List (List Char)) :
    (List.intercalate [' '] (ws.filter p)).length
      ≤ (List.intercalate [' '] ws).length := by
  induction ws with
  | nil => exact Nat.le_refl _
  | cons v ws ih =>
    rw [List.filter_cons]
    split_ifs with hv
    · cases hws : ws.filter p with
      | nil =>
        rw [interLen_singleton]
        exact interLen_head_le v ws
      | cons u F =>
        cases ws with
        | nil => simp at hws
        | cons w ws2 =>
          rw [hws] at ih
          rw [interLen_cons_cons, interLen_cons_cons]
          omega
    · exact le_trans ih (interLen_le_cons v ws)

theorem pyLowerChar_length (c : Char) : (pyLowerChar c).length ≤ 2 := by
  unfold pyLowerChar
  split_ifs
  · decide
  · simp only [List.length_singleton]
    omega

theorem pyLower_length (l : List Char) : (pyLower l).length ≤ 2 * l.length := by
  induction l with
  | nil => exact Nat.le_refl _
  | cons c rest ih =>
    rw [pyLower, List.length_append]
    have hc := pyLowerChar_length c
    simp only [List.length_cons]
    omega

theorem cleanPipeline_length (l : List Char) :
    (cleanPipeline l).length ≤ 2 * l.length := by
  unfold cleanPipeline
  dsimp only
  refine le_trans (pyLower_length _) ?_
  refine Nat.mul_le_mul (Nat.le_refl 2) ?_
  refine le_trans (subToSpace_length _ _) ?_
  refine le_trans (subToSpace_length _ _) ?_
  refine le_trans (subToSpace_length _ _) ?_
  refine le_trans (subToSpace_length _ _) ?_
  refine le_trans (subToSpace_length _ _) ?_
  refine le_trans (subToSpace_length _ _) ?_
  refine le_trans (subToSpace_length _ _) ?_
  refine le_trans (subToSpace_length _ _) ?_
  refine le_trans (subToSpace_length _ _) ?_
  refine le_trans (subToSpace_length _ _) ?_
  refine le_trans (subToSpace_length _ _) ?_
  refine le_trans (subToSpace_length _ _) ?_
  refine le_trans (subToSpace_length _ _) ?_
  rw [mapToSpaceCL_length]
  refine le_trans (subToSpace_length _ _) ?_
  refine le_trans (subToSpace_length _ _) ?_
  refine le_trans (subToSpace_length _ _) ?_
  refine le_trans (subToSpace_length _ _) ?_
  refine le_trans (List.length_filter_le _ _) ?_
  refine le_trans (List.length_filter_le _ _) ?_
  refine le_trans (List.length_filter_le _ _) ?_
  refine le_trans (List.length_filter_le _ _) ?_
  rw [mapToSpaceCL_length, mapToSpaceCL_length, mapToSpaceCL_length]
  refine le_trans (subSoftHyphenJoin_length _) ?_
  rw [mapToSpaceCL_length, mapToSpaceCL_length]
  refine le_trans (subToSpace_length _ _) ?_
  refine le_trans (subToSpace_length _ _) ?_
  refine le_trans (subToSpace_length _ _) ?_
  exact htmlUnescape_length l

theorem cleanCandidate_length (l : List Char) :
    (cleanCandidate l).length ≤ 2 * l.length := by
  unfold cleanCandidate filterShortTokens
  refine le_trans (inter_filter_length_le _ _) ?_
  refine le_trans (splitChunks_join_length _).1 ?_
  refine le_trans (trimCL_length _) ?_
  refine le_trans (subWsRuns_length _) ?_
  exact cleanPipeline_length l

theorem cleanCandidate_nil : cleanCandidate ([] : List Char) = [] := rfl

theorem data_mk (l : List Char) : (String.mk l).data = l := rfl

theorem length_mk (l : List Char) : (String.mk l).length = l.length := rfl

theorem length_data (s : String) : s.length = s.data.length := rfl

theorem clean_text_empty_of_short {s : String}
    (h1 : (cleanCandidate s.data).length < 5) : _clean_text s = "" := by
  unfold _clean_text
  dsimp only
  split_ifs <;> rfl

theorem clean_text_empty_of_few {s : String}
    (h2 : (splitWsCL (cleanCandidate s.data)).length < 2) : _clean_text s = "" := by
  unfold _clean_text
  dsimp only
  split_ifs <;> rfl

theorem clean_text_eq_candidate {s : String}
    (h1 : ¬(cleanCandidate s.data).length < 5)
    (h2 : ¬(splitWsCL (cleanCandidate s.data)).length < 2) :
    _clean_text s = ⟨cleanCandidate s.data⟩ := by
  unfold _clean_text
  dsimp only
  split_ifs with h0
  · subst h0
    rw [show String.data "" = ([] : List Char) from rfl, cleanCandidate_nil] at h1
    exact absurd (by decide) h1
  · rfl

/-- C8: Counterexample to the canonicalizer's claimed length bound: the
input "İx İy" has 5 characters, but `_clean_text` maps it to the 7-character
output "i̇x i̇y", because `text.lower()` (line 537) expands `U+0130` into
`i` followed by the combining dot `U+0307` after the combining-mark removal
of lines 504–508 has already run, and the result passes both degeneracy
guards.  So the output of the canonicalizer is not always at most as long as
its input. -/
theorem canonicalizer_length_counterexample :
    ¬((_clean_text "İx İy").length ≤ ("İx İy" : String).length) := by
  decide

/-- C8: Amended canonicalizer output contract: for every input string the
output of `_clean_text` is at most twice as long as the input (each
character's lowercase mapping has at most two characters); the output is
either the empty string or splits into at least two whitespace-separated
tokens; the output is the empty string exactly when the cleaned candidate
text is degenerate (fewer than 5 characters, or fewer than 2 tokens after
dropping single-character tokens other than i and a); and the body "hi"
canonicalizes to the empty string. -/
theorem canonicalizer_contract_amended :
    (∀ s : String, (_clean_text s).length ≤ 2 * s.length) ∧
    (∀ s : String,
      _clean_text s = "" ∨ 2 ≤ (splitWsCL (_clean_text s).data).length) ∧
    (∀ s : String, _clean_text s = "" ↔
      ((cleanCandidate s.data).length < 5 ∨
        (splitWsCL (cleanCandidate s.data)).length < 2)) ∧
    _clean_text "hi" = "" := by
  refine ⟨?_, ?_, ?_, ?_⟩
  · intro s
    by_cases h1 : (cleanCandidate s.data).length < 5
    · rw [clean_text_empty_of_short h1]
      exact Nat.zero_le _
    by_cases h2 : (splitWsCL (cleanCandidate s.data)).length < 2
    · rw [clean_text_empty_of_few h2]
      exact Nat.zero_le _
    rw [clean_text_eq_candidate h1 h2, length_mk, length_data]
    exact cleanCandidate_length s.data
  · intro s
    by_cases h1 : (cleanCandidate s.data).length < 5
    · exact Or.inl (clean_text_empty_of_short h1)
    by_cases h2 : (splitWsCL (cleanCandidate s.data)).length < 2
    · exact Or.inl (clean_text_empty_of_few h2)
    refine Or.inr ?_
    rw [clean_text_eq_candidate h1 h2, data_mk]
    omega
  · intro s
    by_cases h1 : (cleanCandidate s.data).length < 5
    · exact iff_of_true (clean_text_empty_of_short h1) (Or.inl h1)
    by_cases h2 : (splitWsCL (cleanCandidate s.data)).length < 2
    · exact iff_of_true (clean_text_empty_of_few h2) (Or.inr h2)
    refine iff_of_false ?_ ?_
    · rw [clean_text_eq_candidate h1 h2]
      intro hx
      have hd := congrArg String.data hx
      rw [data_mk, show String.data "" = ([] : List Char) from rfl] at hd
      rw [hd] at h1
      exact h1 (by decide)
    · intro hx
      cases hx with
      | inl h => exact h1 h
      | inr h => exact h2 h
  · decide

end Phish
